import Mathlib

/-!
# Verification of the gorilla/mux routing core

A shallow embedding of the gorilla/mux HTTP router.  The repository copy
under verification ships only the test suite and a few auxiliary files; the
routing core itself (template compilation, route/router matching, dispatch,
and the CORS method middleware) is modelled from the specification, with the
in-repository tests used to pin down the places where the spec's prose is
ambiguous.  Every definition whose Go source is missing carries a
`Modelled from the spec:` note in its doc comment.
-/

namespace Mux

/-! ## Compiled templates

Modelled from the spec: §3 RouteTemplate and §4.1 Template Compiler.  A
compiled template is a sequence of literal runs and placeholders; each
placeholder carries its user name and the character class of its pattern.
A placeholder matches one or more characters of its class (the default
patterns are the classes `[^/]+` for path tokens, `[^.]+` for host tokens).
-/

/-- One part of a compiled template: a literal run or a placeholder.
`varp name cls` stands for the placeholder `\x7bname:cls+\x7d`, matching one
or more characters accepted by `cls`. -/
inductive TplPart where
  | lit (s : List Char)
  | varp (name : String) (cls : Char → Bool)

/-- A compiled template: literal runs and placeholders in order. -/
abbrev Tpl := List TplPart

/-- The default path-token character class `[^/]+`. -/
def nonSlash : Char → Bool := fun c => c != '/'

/-- The default host-token character class `[^.]+`. -/
def nonDot : Char → Bool := fun c => c != '.'

/-- The character class `[0-9]+`. -/
def digitCls : Char → Bool := fun c => decide ('0' ≤ c) && decide (c ≤ '9')

/-- Greedy matching of a single placeholder against the input, in
continuation-passing style.  `acc` is the (nonempty-on-success) run of
class characters consumed so far; the continuation `k` receives the
consumed run and the remaining input.  Longer runs are preferred: the
match first tries to extend the run and falls back to stopping here,
which is the leftmost-greedy backtracking semantics of the anchored
regular expressions produced by the template compiler. -/
def matchVarAux (cls : Char → Bool) (k : List Char → List Char → Option α) :
    List Char → List Char → Option α
  | acc, [] => if acc = [] then none else k acc []
  | acc, c :: cs =>
    if cls c then
      match matchVarAux cls k (acc ++ [c]) cs with
      | some r => some r
      | none => if acc = [] then none else k acc (c :: cs)
    else
      if acc = [] then none else k acc (c :: cs)

/-- Modelled from the spec: matching a component (host, path or query
value) against a compiled template, anchored at both ends.  Returns the
variable bindings in declaration order on success.  Placeholders are
greedy with backtracking, literals are matched exactly. -/
def matchParts : Tpl → List Char → Option (List (String × String))
  | [], cs => if cs = [] then some [] else none
  | .lit s :: ps, cs =>
      if s.isPrefixOf cs then matchParts ps (cs.drop s.length) else none
  | .varp n cls :: ps, cs =>
      matchVarAux cls
        (fun val rest => (matchParts ps rest).map (fun vs => (n, String.mk val) :: vs))
        [] cs

/-- Modelled from the spec: matching a compiled template against a strict
initial segment of the input (the `PathPrefix` anchoring `^...` without the
closing anchor).  Returns the bindings and the unconsumed remainder. -/
def matchPartsPre : Tpl → List Char → Option (List (String × String) × List Char)
  | [], cs => some ([], cs)
  | .lit s :: ps, cs =>
      if s.isPrefixOf cs then matchPartsPre ps (cs.drop s.length) else none
  | .varp n cls :: ps, cs =>
      matchVarAux cls
        (fun val rest =>
          (matchPartsPre ps rest).map (fun pr => ((n, String.mk val) :: pr.1, pr.2)))
        [] cs

/-- Modelled from the spec: §4.1.7 reverse substitution.  Builds the
concrete component from a compiled template and a binding map; every
placeholder must be bound, and (per §4.2 URL) a supplied value violating
its declared pattern makes the build fail.  Literal runs are preserved. -/
def buildParts : Tpl → (String → Option String) → Option (List Char)
  | [], _ => some []
  | .lit s :: ps, m => (buildParts ps m).map (fun cs => s ++ cs)
  | .varp n cls :: ps, m =>
      match m n with
      | none => none
      | some v =>
          if !v.data.isEmpty && v.data.all cls then
            (buildParts ps m).map (fun cs => v.data ++ cs)
          else none

/-- The bindings a template declares, paired with their values under a
binding map, in declaration order. -/
def varsOf (ps : Tpl) (m : String → Option String) : List (String × String) :=
  ps.filterMap fun p =>
    match p with
    | .lit _ => none
    | .varp n _ => (m n).map (fun v => (n, v))

/-- A template is separated (the spec's "unambiguous" templates) when every
placeholder is either the final part or is immediately followed by a
literal whose first character its class rejects — e.g. path placeholders
separated by `/`.  Adjacent placeholders, or a placeholder running into a
literal its class accepts, are ambiguous. -/
def separatedB : Tpl → Bool
  | [] => true
  | .lit _ :: ps => separatedB ps
  | .varp _ cls :: ps =>
    match ps with
    | [] => true
    | .lit [] :: _ => false
    | .lit (c :: _) :: _ => !cls c && separatedB ps
    | .varp _ _ :: _ => false

/-! ## Template strings and registration (the template compiler front end)

Modelled from the spec: §4.1 Template Compiler steps 1–4 and §7 error
handling.  A template string is scanned left to right; balanced top-level
brace pairs delimit placeholders, whose bodies are split at the first `:`
into name and pattern.  A user pattern that introduces a capturing group
causes an immediate registration-time panic; other malformed templates are
deferred soft errors surfaced lazily.
-/

/-- The opening brace character. -/
def obrace : Char := Char.ofNat 123

/-- The closing brace character. -/
def cbrace : Char := Char.ofNat 125

/-- A parsed-but-uncompiled template part: a literal run, or a placeholder
with its name and optional user pattern. -/
inductive RawPart where
  | lit (s : List Char)
  | varp (name : List Char) (pattern : Option (List Char))
  deriving DecidableEq

/-- Split a placeholder body at the first `:` into name and pattern. -/
def splitAtColon : List Char → List Char × Option (List Char)
  | [] => ([], none)
  | c :: rest =>
      if c = ':' then ([], some rest)
      else
        let p := splitAtColon rest
        (c :: p.1, p.2)

/-- Collect a placeholder body up to the brace that closes it, counting
nested brace pairs (user patterns may contain quantifier braces).  Returns
the body and the remainder after the closing brace; `none` when the braces
are unbalanced. -/
def takeVarBody : List Char → Nat → Option (List Char × List Char)
  | [], _ => none
  | c :: rest, depth =>
      if c = cbrace then
        if depth = 0 then some ([], rest)
        else (takeVarBody rest (depth - 1)).map (fun p => (c :: p.1, p.2))
      else if c = obrace then
        (takeVarBody rest (depth + 1)).map (fun p => (c :: p.1, p.2))
      else (takeVarBody rest depth).map (fun p => (c :: p.1, p.2))

/-- Left-to-right scan of a template into literal runs and placeholders.
The fuel argument bounds the number of consumed characters; callers pass
the input length. -/
def parseRawAux : Nat → List Char → Option (List RawPart)
  | _, [] => some []
  | 0, _ :: _ => none
  | fuel + 1, c :: rest =>
      if c = obrace then
        match takeVarBody rest 0 with
        | none => none
        | some (body, rest') =>
            let p := splitAtColon body
            (parseRawAux fuel rest').map (fun ps => .varp p.1 p.2 :: ps)
      else
        match parseRawAux fuel rest with
        | some (.lit s :: ps) => some (.lit (c :: s) :: ps)
        | some ps => some (.lit [c] :: ps)
        | none => none

/-- Parse a template string into raw parts; `none` on unbalanced braces. -/
def parseRaw (s : String) : Option (List RawPart) :=
  parseRawAux s.data.length s.data

/-- The number of capturing groups a user pattern introduces: unescaped
`(` not followed by `?`.  Modelled from the spec: §4.1.4 — injected groups
are the only ones allowed, so any user-written capturing group is a
registration-time violation. -/
def countCaptures : List Char → Nat
  | [] => 0
  | '\\' :: _ :: rest => countCaptures rest
  | '\\' :: [] => 0
  | '(' :: '?' :: rest => countCaptures rest
  | '(' :: rest => countCaptures rest + 1
  | _ :: rest => countCaptures rest

/-- A character-class pattern `[...]` / `[^...]` with one-or-more
quantifier, as a list of inclusive ranges. -/
structure CharClass where
  neg : Bool
  ranges : List (Char × Char)
  deriving DecidableEq

/-- Whether a character belongs to the class. -/
def CharClass.test (k : CharClass) (c : Char) : Bool :=
  let mem := k.ranges.any fun r => decide (r.1 ≤ c) && decide (c ≤ r.2)
  if k.neg then !mem else mem

/-- Parse the items of a character class up to the closing `]+`. -/
def parseItems : List Char → Option (List (Char × Char))
  | [] => none
  | ']' :: '+' :: [] => some []
  | a :: '-' :: b :: rest => (parseItems rest).map (fun l => (a, b) :: l)
  | c :: rest => (parseItems rest).map (fun l => (c, c) :: l)

/-- Parse a one-or-more character-class pattern such as `[0-9]+` or
`[^/]+`.  This is the fragment of the pattern language the model gives a
matching semantics to; patterns outside it compile to a deferred error. -/
def parseCharClass (p : List Char) : Option CharClass :=
  match p with
  | '[' :: '^' :: rest => (parseItems rest).map (CharClass.mk true)
  | '[' :: rest => (parseItems rest).map (CharClass.mk false)
  | _ => none

/-- The component kind a template is compiled for (spec §4.1 contract). -/
inductive TplKind where
  | hostK
  | pathK
  | pathPreK
  | queryK
  deriving DecidableEq

/-- The default pattern class of a component kind: path tokens `[^/]+`,
host tokens `[^.]+`; the model restricts query placeholders to `[^&]+`
(the spec's `.*` star default lies outside the one-or-more fragment). -/
def defaultCls : TplKind → Char → Bool
  | .hostK => nonDot
  | _ => fun c => c != '&'

/-- Compilation failures (spec §7): the capturing-group violation is the
single immediate panic; everything else is a deferred soft error. -/
inductive CompileErr where
  | capturingGroup
  | unbalancedBraces
  | unsupportedPattern
  deriving DecidableEq

/-- Compile raw parts, rejecting user patterns with capturing groups. -/
def compileRaw (kind : TplKind) : List RawPart → Except CompileErr Tpl
  | [] => .ok []
  | .lit s :: ps => (compileRaw kind ps).map (fun t => TplPart.lit s :: t)
  | .varp n pat :: ps =>
      match pat with
      | none => (compileRaw kind ps).map (fun t => TplPart.varp (String.mk n) (defaultCls kind) :: t)
      | some p =>
          if countCaptures p ≠ 0 then .error .capturingGroup
          else
            match parseCharClass p with
            | some k => (compileRaw kind ps).map (fun t => TplPart.varp (String.mk n) k.test :: t)
            | none => .error .unsupportedPattern

/-- The result of registering a path/host template on a route.  Modelled
from the spec: §7 — `panicked` is the immediate registration-time panic
(capturing-group ambiguity), `deferredErr` is a soft error stored on the
route and surfaced lazily by Match/URL/GetError, `registered` is a
successful compilation. -/
inductive RegOutcome where
  | registered (t : Tpl)
  | deferredErr (e : CompileErr)
  | panicked (e : CompileErr)

/-- Modelled from the spec: registering a template on a route (the
`Path`/`PathPrefix`/`Host` builder calls).  Unbalanced braces and patterns
outside the supported fragment become deferred errors; a user pattern
containing a capturing group panics immediately. -/
def registerTemplate (kind : TplKind) (s : String) : RegOutcome :=
  match parseRaw s with
  | none => .deferredErr .unbalancedBraces
  | some raws =>
      if raws.any (fun p =>
          match p with
          | .varp _ (some pat) => countCaptures pat ≠ 0
          | _ => false) then
        .panicked .capturingGroup
      else
        match compileRaw kind raws with
        | .ok t => .registered t
        | .error e => .deferredErr e

/-- The template from the capturing-group test, written without brace
literals: the path template for promo-type routes with the user pattern
containing the alternation group. -/
def capturingTemplate : String :=
  String.mk ('/' :: obrace :: "type:(promo|special)".data ++ [cbrace] ++
    ('/' :: obrace :: "promoId".data ++ [cbrace] ++ ".json".data))

/-! ## Requests, responses, context

The request abstraction of spec §6, with the per-request context of
`context.go` (present in the sources as the `contextSet`/`contextGet`
hooks installed by `init`): a write-once store attached to a shallow copy
of the request.
-/

/-- Keys of the per-request context (the routing core only stores the
resolved variables; the resolved-route slot is not modelled). -/
inductive CtxKey where
  | varsKey
  deriving DecidableEq, Repr

/-- Values stored in the per-request context. -/
inductive CtxVal where
  | varsV (vs : List (String × String))
  deriving DecidableEq, Repr

/-- An HTTP request as the router sees it (spec §6): method, host, path,
raw query string, decoded query pairs, and the per-request context. -/
structure Request where
  method : String
  host : String
  path : String
  rawQuery : String
  query : List (String × String)
  ctx : List (CtxKey × CtxVal)
  deriving DecidableEq, Repr

/-- `contextSet` from the sources: returns a shallow copy of the request
whose context binds `k` to `v`; the argument request is unchanged. -/
def contextSet (r : Request) (k : CtxKey) (v : CtxVal) : Request :=
  { r with ctx := (k, v) :: r.ctx }

/-- `contextGet` from the sources: the most recent value bound to `k`. -/
def contextGet (r : Request) (k : CtxKey) : Option CtxVal :=
  (r.ctx.find? (fun p => p.1 = k)).map (fun p => p.2)

/-- Modelled from the spec: `setVars` of the missing `mux.go`, storing the
resolved variables in the request context via `contextSet`. -/
def setVars (r : Request) (vs : List (String × String)) : Request :=
  contextSet r .varsKey (.varsV vs)

/-- `SetURLVars` from the sources (`test_helpers.go`): sets the URL
variables for a request, returning the shallow copy that carries them. -/
def SetURLVars (r : Request) (vs : List (String × String)) : Request :=
  setVars r vs

/-- Modelled from the spec: `Vars` of the missing `mux.go` — the URL
variables recorded in the request context, nil (empty) when absent. -/
def Vars (r : Request) : List (String × String) :=
  match contextGet r .varsKey with
  | some (.varsV vs) => vs
  | none => []

/-- An HTTP response: status, headers and body. -/
structure Response where
  status : Nat
  headers : List (String × String)
  body : String
  deriving DecidableEq, Repr

/-- A handler consumes the request and produces the response. -/
abbrev Handler := Request → Response

/-- A handler that writes a string with status 200 (the `stringHandler`
test helper). -/
def stringHandler (s : String) : Handler := fun _ => ⟨200, [], s⟩

/-- The default not-found handler: plain 404 (spec §4.3.3). -/
def notFoundDefault : Handler := fun _ => ⟨404, [], "404 page not found\n"⟩

/-- Modelled from the spec: the default method-not-allowed handler, a
plain 405 (spec §4.3.3). -/
def methodNotAllowedDefault : Handler := fun _ => ⟨405, [], "405 method not allowed\n"⟩

/-- A redirect handler: Location header plus the redirect status. -/
def redirectHandler (url : String) (code : Nat) : Handler :=
  fun _ => ⟨code, [("Location", url)], ""⟩

/-- The request path with its trailing slash toggled (the strict-slash
redirect target, spec §4.1.5). -/
def flipSlash (p : String) : String :=
  match p.data.getLast? with
  | some '/' => String.mk p.data.dropLast
  | _ => p ++ "/"

/-- A redirect URL preserving the query string (spec §8 StrictSlash). -/
def redirectURL (p : String) (rawQuery : String) : String :=
  if rawQuery = "" then p else p ++ "?" ++ rawQuery

/-- First value bound to a key in an association list (the semantics of
`findFirstQueryKey`: the first occurrence of the key wins). -/
def lookupFirst (k : String) : List (String × String) → Option String
  | [] => none
  | (k', v) :: rest => if k' = k then some v else lookupFirst k rest

/-! ## The route tree

Modelled from the spec: §3 and §4.2–4.3.  A router owns an ordered route
list, optional not-found/method-not-allowed handlers, a middleware chain
and the strict-slash flag; a route owns an ordered matcher list, an
optional terminal handler, its inherited strict-slash flag and a metadata
map; a matcher is one of the predicate kinds, including a nested
subrouter.  The mutual lists are spelled out as their own inductives so
that every traversal below is plain structural recursion.
-/

/-- The soft-error classification of spec §3 RouteMatch, plus the
metadata-lookup error of the metadata API. -/
inductive MuxErr where
  | methodMismatch
  | notFound
  | metadataKeyNotFound
  deriving DecidableEq, Repr

mutual
/-- A router: routes in registration order, optional custom fallback
handlers, the middleware chain, and the strict-slash flag. -/
inductive RouterM where
  | mk (routes : RouteListM) (notFoundH : Option Handler)
      (methodNotAllowedH : Option Handler)
      (middlewares : List (Handler → Handler))
      (strictSlash : Bool)

/-- An ordered list of routes. -/
inductive RouteListM where
  | nil
  | cons (rt : RouteM) (rest : RouteListM)

/-- A route: matchers in addition order, an optional terminal handler,
the inherited strict-slash flag, and the user metadata map. -/
inductive RouteM where
  | mk (matchers : MatcherListM) (handler : Option Handler)
      (strictSlash : Bool) (metadata : List (String × String))

/-- An ordered list of matchers. -/
inductive MatcherListM where
  | nil
  | cons (m : MatcherM) (rest : MatcherListM)

/-- One matcher (spec §3 Matcher): host, path, path-prefix, method set,
query pair, or a nested subrouter carried by the parent route. -/
inductive MatcherM where
  | hostM (t : Tpl)
  | pathM (t : Tpl)
  | pathPreM (t : Tpl)
  | methodsM (ms : List String)
  | queryM (key : String) (t : Tpl)
  | subM (child : RouterM)
end

/-- The outcome of matching a route, router or matcher list against a
request (spec §3 RouteMatch): a full match carrying the resolved handler
and variables; a fallback match carrying a custom error handler found in
the matched sub-tree together with its soft error (middleware must not
wrap it); or a failure with its soft-error classification. -/
inductive MatchOutcome where
  | okR (h : Handler) (vars : List (String × String))
  | fallbackR (h : Handler) (err : MuxErr)
  | failR (err : MuxErr)

/-- The soft error of an outcome, `none` for a full match. -/
def MatchOutcome.errOf : MatchOutcome → Option MuxErr
  | .okR _ _ => none
  | .fallbackR _ e => some e
  | .failR e => some e

/-- The variables of a full match. -/
def MatchOutcome.varsOf : MatchOutcome → Option (List (String × String))
  | .okR _ vs => some vs
  | _ => none

/-- Whether the outcome is a failure (`Router.Match` returns false). -/
def MatchOutcome.isFail : MatchOutcome → Bool
  | .failR _ => true
  | _ => false

/-- The middleware chain applied to a handler, each middleware wrapping
everything after it, in registration order (spec §4.3.5). -/
def wrapChain (mws : List (Handler → Handler)) (h : Handler) : Handler :=
  mws.foldr (fun mw acc => mw acc) h

mutual
/-- Modelled from the spec: `Router.Match` (spec §4.3.2–3 and the §4.3
invariant).  Scans the routes in order; on no full match the strongest
recorded soft error picks this router's own fallback handler when it has
one — entering a sub-tree that owns a handler therefore shadows every
ancestor's. -/
def routerMatch (r : RouterM) (req : Request) : MatchOutcome :=
  match r with
  | .mk routes nfH mnaH _ _ =>
      match scanRoutes routes req with
      | .okR h vs => .okR h vs
      | .fallbackR h e => .fallbackR h e
      | .failR e =>
          match e with
          | .methodMismatch =>
              match mnaH with
              | some h => .fallbackR h .methodMismatch
              | none => .failR .methodMismatch
          | _ =>
              match nfH with
              | some h => .fallbackR h .notFound
              | none => .failR .notFound

/-- Modelled from the spec: the scan of spec §3 Precedence — the first
route whose matchers all pass wins; method-mismatch recorded by any
examined route outranks not-found; a fallback handler surfacing from a
sub-tree stops the scan. -/
def scanRoutes (rs : RouteListM) (req : Request) : MatchOutcome :=
  match rs with
  | .nil => .failR .notFound
  | .cons rt rest =>
      match routeMatch rt req with
      | .okR h vs => .okR h vs
      | .fallbackR h e => .fallbackR h e
      | .failR e =>
          match scanRoutes rest req with
          | .failR e2 =>
              .failR (if e = .methodMismatch ∨ e2 = .methodMismatch
                then .methodMismatch else .notFound)
          | o => o

/-- Modelled from the spec: `Route.Match` (spec §4.2) — evaluate the
matchers in addition order via `matchersGo` with an empty accumulator. -/
def routeMatch (rt : RouteM) (req : Request) : MatchOutcome :=
  match rt with
  | .mk ms handler strict _ => matchersGo ms req [] false none none handler strict

/-- Modelled from the spec: the matcher loop of `Route.Match` (spec §4.2):
short-circuit on the first failing non-method matcher; a failing method
matcher records the mismatch and keeps going; variables accumulate in
matcher order.  `subH` carries the handler resolved by a subrouter
matcher (with its soft error when it is a fallback handler), `redirH` the
strict-slash redirect handler when the path matched only up to a trailing
slash; on success the redirect handler takes priority, then the
subrouter's handler, then the route's own. -/
def matchersGo (ms : MatcherListM) (req : Request)
    (vars : List (String × String)) (mm : Bool)
    (subH : Option (Handler × Option MuxErr)) (redirH : Option Handler)
    (routeH : Option Handler) (strict : Bool) : MatchOutcome :=
  match ms with
  | .nil =>
      if mm then .failR .methodMismatch
      else
        match subH with
        | some (h, some e) => .fallbackR h e
        | some (h, none) => .okR (redirH.getD h) vars
        | none => .okR (redirH.getD (routeH.getD notFoundDefault)) vars
  | .cons m rest =>
      match m with
      | .hostM t =>
          match matchParts t req.host.data with
          | some vs => matchersGo rest req (vars ++ vs) mm subH redirH routeH strict
          | none => .failR .notFound
      | .pathM t =>
          match matchParts t req.path.data with
          | some vs => matchersGo rest req (vars ++ vs) mm subH redirH routeH strict
          | none =>
              if strict then
                match matchParts t (flipSlash req.path).data with
                | some vs =>
                    matchersGo rest req (vars ++ vs) mm subH
                      (some (redirectHandler
                        (redirectURL (flipSlash req.path) req.rawQuery) 301))
                      routeH strict
                | none => .failR .notFound
              else .failR .notFound
      | .pathPreM t =>
          match matchPartsPre t req.path.data with
          | some pr => matchersGo rest req (vars ++ pr.1) mm subH redirH routeH strict
          | none => .failR .notFound
      | .methodsM l =>
          if l.contains req.method then
            matchersGo rest req vars mm subH redirH routeH strict
          else
            matchersGo rest req vars true subH redirH routeH strict
      | .queryM key t =>
          match lookupFirst key req.query with
          | some v =>
              match matchParts t v.data with
              | some vs => matchersGo rest req (vars ++ vs) mm subH redirH routeH strict
              | none => .failR .notFound
          | none => .failR .notFound
      | .subM child =>
          match routerMatch child req with
          | .okR h vs => matchersGo rest req (vars ++ vs) mm (some (h, none)) redirH routeH strict
          | .fallbackR h e => matchersGo rest req vars mm (some (h, some e)) redirH routeH strict
          | .failR e => .failR e
end

/-- The middleware chain of a router. -/
def middlewaresOf : RouterM → List (Handler → Handler)
  | .mk _ _ _ mws _ => mws

/-- The router with its middleware chain replaced. -/
def setMW (r : RouterM) (mws : List (Handler → Handler)) : RouterM :=
  match r with
  | .mk routes nfH mnaH _ strict => .mk routes nfH mnaH mws strict

/-- Modelled from the spec: `Router.ServeHTTP` dispatch (spec §4.3): a
full match runs the handler wrapped in this router's middleware chain,
with the resolved variables stored in the request context; a fallback
handler from the tree and the default 404/405 fallbacks run bare —
middleware never observes requests that fail to match. -/
def serveHTTP (r : RouterM) (req : Request) : Response :=
  match routerMatch r req with
  | .okR h vs => wrapChain (middlewaresOf r) h (setVars req vs)
  | .fallbackR h _ => h req
  | .failR .methodMismatch => methodNotAllowedDefault req
  | .failR _ => notFoundDefault req

/-! ## Reverse URL building (Route.URL / URLHost / URLPath)

Modelled from the spec: §4.2 URL — substitute the bindings into the
route's host, path and query reverse templates; fail on a missing
variable or a value that violates its declared pattern.
-/

/-- The template of the route's host matcher, if any. -/
def firstHostTpl : MatcherListM → Option Tpl
  | .nil => none
  | .cons (.hostM t) _ => some t
  | .cons _ rest => firstHostTpl rest

/-- The template of the route's path matcher, if any. -/
def firstPathTpl : MatcherListM → Option Tpl
  | .nil => none
  | .cons (.pathM t) _ => some t
  | .cons _ rest => firstPathTpl rest

/-- The query templates of a route, keyed and in addition order. -/
def queryTplsOf : MatcherListM → List (String × Tpl)
  | .nil => []
  | .cons (.queryM k t) rest => (k, t) :: queryTplsOf rest
  | .cons _ rest => queryTplsOf rest

/-- Build every query pair from the bindings. -/
def builtQueries : List (String × Tpl) → (String → Option String) →
    Option (List (String × String))
  | [], _ => some []
  | (k, t) :: qs, σ =>
      match buildParts t σ, builtQueries qs σ with
      | some v, some rest => some ((k, String.mk v) :: rest)
      | _, _ => none

/-- Join query pairs into a raw query string. -/
def joinQuery : List (String × String) → String
  | [] => ""
  | [(k, v)] => k ++ "=" ++ v
  | (k, v) :: rest => k ++ "=" ++ v ++ "&" ++ joinQuery rest

/-- Modelled from the spec: `Route.URL` — build a request for the URL
obtained by substituting the bindings into the route's host, path and
query reverse templates (empty component when the route has no template
of that kind; the request method is GET, the context empty). -/
def routeURL (rt : RouteM) (σ : String → Option String) : Option Request :=
  match rt with
  | .mk ms _ _ _ =>
      let hostO : Option (List Char) :=
        match firstHostTpl ms with
        | some t => buildParts t σ
        | none => some []
      let pathO : Option (List Char) :=
        match firstPathTpl ms with
        | some t => buildParts t σ
        | none => some []
      match hostO, pathO, builtQueries (queryTplsOf ms) σ with
      | some hcs, some pcs, some ql =>
          some { method := "GET", host := String.mk hcs, path := String.mk pcs,
                 rawQuery := joinQuery ql, query := ql, ctx := [] }
      | _, _, _ => none

/-- Modelled from the spec: `Route.URLPath` — the path component only. -/
def routeURLPath (rt : RouteM) (σ : String → Option String) : Option String :=
  match rt with
  | .mk ms _ _ _ =>
      match firstPathTpl ms with
      | some t => (buildParts t σ).map String.mk
      | none => none

/-- Modelled from the spec: `Route.URLHost` — the host component only. -/
def routeURLHost (rt : RouteM) (σ : String → Option String) : Option String :=
  match rt with
  | .mk ms _ _ _ =>
      match firstHostTpl ms with
      | some t => (buildParts t σ).map String.mk
      | none => none

/-! ## CORS method middleware

Modelled from the spec: §4.4 — aggregate the declared methods of every
route relevant to the request (it matches fully, or its non-method
matchers pass while the method matcher fails), and advertise them in
`Access-Control-Allow-Methods` when OPTIONS is among them, for OPTIONS
and non-OPTIONS requests alike; a relevant route without declared methods
is an introspection failure that skips the header silently; the wrapped
handler is always still invoked.
-/

/-- The declared method set of a route (`Route.GetMethods`): the first
method matcher's list; `none` — an error — when the route declares no
methods. -/
def getMethodsOf : MatcherListM → Option (List String)
  | .nil => none
  | .cons (.methodsM l) _ => some l
  | .cons _ rest => getMethodsOf rest

/-- `Route.GetMethods` on a route. -/
def routeGetMethods : RouteM → Option (List String)
  | .mk ms _ _ _ => getMethodsOf ms

/-- The routes of a router. -/
def routesOf : RouterM → RouteListM
  | .mk routes _ _ _ _ => routes

/-- Whether the route is relevant to method aggregation for this request:
it matches, or only its method matcher failed. -/
def relevantForCORS (rt : RouteM) (req : Request) : Bool :=
  match routeMatch rt req with
  | .okR _ _ => true
  | .fallbackR _ _ => true
  | .failR .methodMismatch => true
  | .failR _ => false

/-- Union (concatenation in route order) of the declared methods of every
relevant route; `none` as soon as a relevant route declares no methods. -/
def allMethodsGo (req : Request) : RouteListM → Option (List String)
  | .nil => some []
  | .cons rt rest =>
      if relevantForCORS rt req then
        match routeGetMethods rt, allMethodsGo req rest with
        | some l, some acc => some (l ++ acc)
        | _, _ => none
      else allMethodsGo req rest

/-- `getAllMethodsForRoute`: aggregate over the router's route list. -/
def allMethodsForRoute (r : RouterM) (req : Request) : Option (List String) :=
  allMethodsGo req (routesOf r)

/-- Set a response header, replacing any previous value of the key. -/
def setHeader (resp : Response) (k v : String) : Response :=
  { resp with headers := (k, v) :: resp.headers.filter (fun p => p.1 ≠ k) }

/-- Read a response header. -/
def getHeader (resp : Response) (k : String) : Option String :=
  lookupFirst k resp.headers

/-- Comma-join a method list. -/
def joinComma : List String → String
  | [] => ""
  | [s] => s
  | s :: rest => s ++ "," ++ joinComma rest

/-- Modelled from the spec: `CORSMethodMiddleware(r)` — on every request
reaching the wrapped handler, aggregate the relevant routes' methods; when
aggregation succeeds and OPTIONS is among them, set
`Access-Control-Allow-Methods` to the comma-joined list; always invoke the
wrapped handler. -/
def corsMethodMiddleware (r : RouterM) : Handler → Handler :=
  fun next req =>
    match allMethodsForRoute r req with
    | some l =>
        if l.contains "OPTIONS" then
          setHeader (next req) "Access-Control-Allow-Methods" (joinComma l)
        else next req
    | none => next req

/-! ## Route metadata

Modelled from the spec: §3 Route "user metadata" with the accessor
behavior pinned down by `TestRouteMetadata`: `Metadata` adds an entry
(overwriting the key), `GetMetadata` returns all entries,
`GetMetadataValue` returns the entry or the `ErrMetadataKeyNotFound`
error, `GetMetadataValueOr` returns the entry or the fallback.
-/

/-- `Route.Metadata(key, value)`: add an entry, overwriting the key. -/
def routeWithMetadata (rt : RouteM) (k v : String) : RouteM :=
  match rt with
  | .mk ms h s meta => .mk ms h s ((k, v) :: meta.filter (fun p => p.1 ≠ k))

/-- `Route.GetMetadata`: all entries set on the route. -/
def getMetadata : RouteM → List (String × String)
  | .mk _ _ _ meta => meta

/-- `Route.GetMetadataValue`: the stored value, or the typed
key-not-found error. -/
def getMetadataValue (rt : RouteM) (k : String) : Except MuxErr String :=
  match lookupFirst k (getMetadata rt) with
  | some v => .ok v
  | none => .error .metadataKeyNotFound

/-- `Route.GetMetadataValueOr`: the stored value, or the fallback. -/
def getMetadataValueOr (rt : RouteM) (k fb : String) : String :=
  match lookupFirst k (getMetadata rt) with
  | some v => v
  | none => fb

/-! ## Auxiliary predicates used by the statements below -/

/-- The matcher list as a plain list. -/
def msToList : MatcherListM → List MatcherM
  | .nil => []
  | .cons m rest => m :: msToList rest

/-- Concatenation of route lists. -/
def appendRL : RouteListM → RouteListM → RouteListM
  | .nil, rs => rs
  | .cons rt rest, rs => .cons rt (appendRL rest rs)

/-- Number of host matchers on a route. -/
def hostCount : MatcherListM → Nat
  | .nil => 0
  | .cons (.hostM _) rest => hostCount rest + 1
  | .cons _ rest => hostCount rest

/-- Number of path matchers on a route. -/
def pathCount : MatcherListM → Nat
  | .nil => 0
  | .cons (.pathM _) rest => pathCount rest + 1
  | .cons _ rest => pathCount rest

/-- Whether every matcher is a host, path or query matcher (the matcher
kinds that both build URLs and bind variables). -/
def onlyUrlMatchers : MatcherListM → Bool
  | .nil => true
  | .cons (.hostM _) rest => onlyUrlMatchers rest
  | .cons (.pathM _) rest => onlyUrlMatchers rest
  | .cons (.queryM _ _) rest => onlyUrlMatchers rest
  | .cons _ _ => false

/-- Whether every template on the route is separated (unambiguous). -/
def sepAllB : MatcherListM → Bool
  | .nil => true
  | .cons (.hostM t) rest => separatedB t && sepAllB rest
  | .cons (.pathM t) rest => separatedB t && sepAllB rest
  | .cons (.queryM _ t) rest => separatedB t && sepAllB rest
  | .cons _ rest => sepAllB rest

/-- The query keys a route declares, in order. -/
def queryKeysOf (ms : MatcherListM) : List String :=
  (queryTplsOf ms).map (fun p => p.1)

/-- The bindings a whole route declares under a binding map: the
variables of its host, path and query templates, in matcher order. -/
def routeVars : MatcherListM → (String → Option String) → List (String × String)
  | .nil, _ => []
  | .cons (.hostM t) rest, σ => varsOf t σ ++ routeVars rest σ
  | .cons (.pathM t) rest, σ => varsOf t σ ++ routeVars rest σ
  | .cons (.queryM _ t) rest, σ => varsOf t σ ++ routeVars rest σ
  | .cons _ rest, σ => routeVars rest σ

/-- One matcher passes on the request, binding exactly the template's
variables under `σ`. -/
def matcherPasses (req : Request) (σ : String → Option String) : MatcherM → Prop
  | .hostM t => matchParts t req.host.data = some (varsOf t σ)
  | .pathM t => matchParts t req.path.data = some (varsOf t σ)
  | .queryM k t =>
      ∃ v, lookupFirst k req.query = some v ∧ matchParts t v.data = some (varsOf t σ)
  | _ => False

/-- Every matcher of the list passes as in `matcherPasses`. -/
def allPass (req : Request) (σ : String → Option String) : MatcherListM → Prop
  | .nil => True
  | .cons m rest => matcherPasses req σ m ∧ allPass req σ rest

/-- Every route in the list fails to match (no full match, no fallback
handler surfacing from a sub-tree). -/
def allRoutesFail : RouteListM → Request → Bool
  | .nil, _ => true
  | .cons rt rest, req => (routeMatch rt req).isFail && allRoutesFail rest req

/-- Every route in the list fails with the not-found soft error. -/
def allRoutesFailNF : RouteListM → Request → Bool
  | .nil, _ => true
  | .cons rt rest, req =>
      (match routeMatch rt req with
        | .failR .notFound => true
        | _ => false) && allRoutesFailNF rest req

/-- Some route in the list fails with the method-mismatch soft error:
its non-method matchers pass while its method matcher fails. -/
def someRouteMethodMismatch : RouteListM → Request → Bool
  | .nil, _ => false
  | .cons rt rest, req =>
      (match routeMatch rt req with
        | .failR .methodMismatch => true
        | _ => false) || someRouteMethodMismatch rest req


/-! ## Concrete routers, routes and requests

The configurations of the in-repository tests, used below to instantiate
the universally quantified theorems and to refute over-general claims.
-/

/-- The ambiguous template `/\x7ba\x7d\x7bb\x7d`: two adjacent default
path placeholders. -/
def ambTpl : Tpl := [.lit "/".data, .varp "a" nonSlash, .varp "b" nonSlash]

/-- A route with the ambiguous path template. -/
def ambRoute : RouteM := .mk (.cons (.pathM ambTpl) .nil) (some (stringHandler "amb")) false []

/-- Bindings a = "x", b = "yz"; both satisfy the `[^/]+` pattern. -/
def ambBind : String → Option String :=
  fun n => if n = "a" then some "x" else if n = "b" then some "yz" else none

/-- The request for the URL built from `ambRoute` under `ambBind`. -/
def ambReq : Request := ⟨"GET", "", "/xyz", "", [], []⟩

/-- Matchers with host, path and query templates, all separated:
`\x7bsub\x7d.domain.com`, `/users/\x7bid:[0-9]+\x7d`, `orgID=\x7borg\x7d`. -/
def urlMsL : MatcherListM :=
  .cons (.hostM [.varp "sub" nonDot, .lit ".domain.com".data])
    (.cons (.pathM [.lit "/users/".data, .varp "id" digitCls])
      (.cons (.queryM "orgID" [.varp "org" (defaultCls .queryK)]) .nil))

/-- A route carrying the three separated templates. -/
def urlRoute : RouteM := .mk urlMsL (some (stringHandler "u")) false []

/-- The request the URL of `urlRoute` under `urlBind` denotes. -/
def urlReq : Request :=
  ⟨"GET", "api.domain.com", "/users/42", "orgID=7", [("orgID", "7")], []⟩

/-- Bindings for `urlRoute`, all satisfying their patterns. -/
def urlBind : String → Option String :=
  fun n =>
    if n = "sub" then some "api"
    else if n = "id" then some "42"
    else if n = "org" then some "7" else none

/-- The route `/` restricted to methods GET and POST
(`TestNoMatchMethodErrorHandler`). -/
def rootGetPostRoute : RouteM :=
  .mk (.cons (.pathM [.lit "/".data]) (.cons (.methodsM ["GET", "POST"]) .nil))
    (some (stringHandler "root")) false []

/-- The single-route list of `rootGetPostRoute`. -/
def oneRouteList : RouteListM := .cons rootGetPostRoute .nil

/-- A PUT request for `/`. -/
def putRootReq : Request := ⟨"PUT", "localhost", "/", "", [], []⟩

/-- A GET request for an unregistered path. -/
def getNotFoundReq : Request := ⟨"GET", "localhost", "/not/found", "", [], []⟩

/-- A middleware that tags the response body (the observable effect the
test middleware writes). -/
def tagMW : Handler → Handler :=
  fun h req =>
    let resp := h req
    { resp with body := "Middleware-" ++ resp.body }

/-- The strict-slash template `/111/` of `TestStrictSlash`. -/
def slashTpl : Tpl := [.lit "/111/".data]

/-- The strict-slash route registered as `/111/`. -/
def slashRoute : RouteM := .mk (.cons (.pathM slashTpl) .nil) (some (stringHandler "s")) true []

/-- A request for `/111` (no trailing slash) with a query string. -/
def noSlashReq : Request := ⟨"GET", "localhost", "/111", "q=1", [("q", "1")], []⟩

/-- The path-prefix template `/static/`. -/
def staticTpl : Tpl := [.lit "/static/".data]

/-- The strict-slash route registered as `PathPrefix("/static/")`. -/
def staticRoute : RouteM :=
  .mk (.cons (.pathPreM staticTpl) .nil) (some (stringHandler "st")) true []

/-- A request under the static prefix. -/
def logoReq : Request := ⟨"GET", "localhost", "/static/logo.png", "", [], []⟩

/-- The subrouter of `TestSubrouterErrorHandling`: one route `/bign8/x`,
its own not-found handler. -/
def bign8Child : RouterM :=
  .mk (.cons (.mk (.cons (.pathM [.lit "/bign8/x".data]) .nil)
        (some (stringHandler "cx")) false []) .nil)
    (some (stringHandler "sub404")) none [] false

/-- The same subrouter without its own not-found handler. -/
def bign8ChildBare : RouterM :=
  .mk (.cons (.mk (.cons (.pathM [.lit "/bign8/x".data]) .nil)
        (some (stringHandler "cx")) false []) .nil)
    none none [] false

/-- The request `/bign8/was/here`: enters the sub-tree, matches nothing. -/
def bign8Req : Request := ⟨"GET", "localhost", "/bign8/was/here", "", [], []⟩

/-- The `/foo` route with methods GET, PUT, PATCH and handler "a"
(`TestCORSMethodMiddleware`). -/
def fooGetRoute : RouteM :=
  .mk (.cons (.pathM [.lit "/foo".data]) (.cons (.methodsM ["GET", "PUT", "PATCH"]) .nil))
    (some (stringHandler "a")) false []

/-- The `/foo` route with method OPTIONS and handler "b". -/
def fooOptionsRoute : RouteM :=
  .mk (.cons (.pathM [.lit "/foo".data]) (.cons (.methodsM ["OPTIONS"]) .nil))
    (some (stringHandler "b")) false []

/-- A `/foo` route that declares no methods, with handler "b". -/
def fooNoMethodsRoute : RouteM :=
  .mk (.cons (.pathM [.lit "/foo".data]) .nil) (some (stringHandler "b")) false []

/-- Router with only the GET/PUT/PATCH route ("does not set without
OPTIONS matcher"), before the middleware is installed. -/
def corsBase1 : RouterM := .mk (.cons fooGetRoute .nil) none none [] false

/-- `corsBase1` wrapped in its own CORS method middleware. -/
def corsRouter1 : RouterM :=
  .mk (.cons fooGetRoute .nil) none none [corsMethodMiddleware corsBase1] false

/-- Router with the GET/PUT/PATCH route and a methodless sibling on the
same path, before the middleware is installed. -/
def corsBase2 : RouterM := .mk (.cons fooGetRoute (.cons fooNoMethodsRoute .nil)) none none [] false

/-- `corsBase2` wrapped in its own CORS method middleware. -/
def corsRouter2 : RouterM :=
  .mk (.cons fooGetRoute (.cons fooNoMethodsRoute .nil)) none none
    [corsMethodMiddleware corsBase2] false

/-- Router with the GET/PUT/PATCH route and the OPTIONS sibling ("sets on
non OPTIONS" / "sets without preflight headers"), before the middleware. -/
def corsBase3 : RouterM := .mk (.cons fooGetRoute (.cons fooOptionsRoute .nil)) none none [] false

/-- `corsBase3` wrapped in its own CORS method middleware. -/
def corsRouter3 : RouterM :=
  .mk (.cons fooGetRoute (.cons fooOptionsRoute .nil)) none none
    [corsMethodMiddleware corsBase3] false

/-- An OPTIONS request for `/foo`. -/
def optionsFooReq : Request := ⟨"OPTIONS", "", "/foo", "", [], []⟩

/-- A GET request for `/foo`. -/
def getFooReq : Request := ⟨"GET", "", "/foo", "", [], []⟩

/-! ### Round-trip lemmas for separated templates -/

/-- If the input starts with a nonempty run of class characters followed by
a remainder that cannot extend the run, greedy placeholder matching hands
exactly that split to its continuation. -/
theorem matchVarAux_exact (cls : Char → Bool) (k : List Char → List Char → Option α)
    (val : List Char) (r : α) :
    ∀ (acc rest : List Char), val.all cls = true → acc ++ val ≠ [] →
    (rest = [] ∨ ∃ c cs, rest = c :: cs ∧ cls c = false) →
    k (acc ++ val) rest = some r →
    matchVarAux cls k acc (val ++ rest) = some r := by
  induction val with
  | nil =>
      intro acc rest _ hne hrest hk
      simp only [List.append_nil] at hne hk
      rcases hrest with hrest | ⟨c, cs, hrest, hc⟩
      · subst hrest
        simp [matchVarAux, hne, hk]
      · subst hrest
        simp [matchVarAux, hc, hne, hk]
  | cons v val ih =>
      intro acc rest hall hne hrest hk
      have hv : cls v = true := by
        simp only [List.all_cons, Bool.and_eq_true] at hall
        exact hall.1
      have hall' : val.all cls = true := by
        simp only [List.all_cons, Bool.and_eq_true] at hall
        exact hall.2
      have hne' : (acc ++ [v]) ++ val ≠ [] := by simp
      have hk' : k ((acc ++ [v]) ++ val) rest = some r := by
        simpa [List.append_assoc] using hk
      have := ih (acc ++ [v]) rest hall' hne' hrest hk'
      simp only [List.cons_append, matchVarAux, hv, if_pos]
      simp only [List.append_eq]
      rw [this]

/-- Round-trip for one component: on a separated template, matching the
component just built from a pattern-respecting binding map succeeds and
recovers exactly the declared bindings. -/
theorem matchParts_buildParts (ps : Tpl) (m : String → Option String) :
    ∀ (cs : List Char), separatedB ps = true → buildParts ps m = some cs →
    matchParts ps cs = some (varsOf ps m) := by
  induction ps with
  | nil =>
      intro cs _ hb
      simp only [buildParts, Option.some.injEq] at hb
      subst hb
      simp [matchParts, varsOf]
  | cons p ps ih =>
      intro cs hsep hb
      cases p with
      | lit s =>
          simp only [buildParts, Option.map_eq_some'] at hb
          obtain ⟨cs', hb', rfl⟩ := hb
          have hsep' : separatedB ps = true := by simpa [separatedB] using hsep
          have hpre : s.isPrefixOf (s ++ cs') = true := by
            simp [List.isPrefixOf_iff_prefix]
          simp only [matchParts, hpre, if_pos]
          rw [List.drop_left]
          simpa [varsOf] using ih cs' hsep' hb'
      | varp n cls =>
          cases hmn : m n with
          | none => simp [buildParts, hmn] at hb
          | some v =>
              simp only [buildParts, hmn] at hb
              by_cases hok : (!v.data.isEmpty && v.data.all cls) = true
              · rw [if_pos hok] at hb
                simp only [Option.map_eq_some'] at hb
                obtain ⟨cs', hb', rfl⟩ := hb
                have hvne : v.data ≠ [] := by
                  rcases Bool.and_eq_true .. |>.mp hok with ⟨h1, _⟩
                  simpa [List.isEmpty_iff] using h1
                have hvall : v.data.all cls = true :=
                  (Bool.and_eq_true .. |>.mp hok).2
                -- the separation condition for the head placeholder
                have hsep' : separatedB ps = true := by
                  cases ps with
                  | nil => simp [separatedB]
                  | cons q qs =>
                      cases q with
                      | lit s =>
                          cases s with
                          | nil => simp [separatedB] at hsep
                          | cons c s' =>
                              have := hsep
                              simp only [separatedB, Bool.and_eq_true] at this
                              exact this.2
                      | varp n' cls' => simp [separatedB] at hsep
                have hrest : cs' = [] ∨ ∃ c cs'', cs' = c :: cs'' ∧ cls c = false := by
                  cases ps with
                  | nil =>
                      left
                      simpa [buildParts] using hb'.symm
                  | cons q qs =>
                      cases q with
                      | lit s =>
                          cases s with
                          | nil => simp [separatedB] at hsep
                          | cons c s' =>
                              right
                              have hc : cls c = false := by
                                have := hsep
                                simp only [separatedB, Bool.and_eq_true,
                                  Bool.not_eq_true'] at this
                                exact this.1
                              simp only [buildParts, Option.map_eq_some'] at hb'
                              obtain ⟨cs'', _, rfl⟩ := hb'
                              exact ⟨c, s' ++ cs'', by simp, hc⟩
                      | varp n' cls' => simp [separatedB] at hsep
                have hmatch : matchParts ps cs' = some (varsOf ps m) :=
                  ih cs' hsep' hb'
                have hcont : (matchParts ps cs').map
                    (fun vs => (n, String.mk ([] ++ v.data)) :: vs)
                    = some ((n, v) :: varsOf ps m) := by
                  rw [hmatch]
                  cases v with
                  | mk d => simp
                have hvars : varsOf (TplPart.varp n cls :: ps) m
                    = (n, v) :: varsOf ps m := by
                  simp [varsOf, hmn]
                rw [hvars]
                simp only [matchParts]
                exact matchVarAux_exact cls _ v.data _ [] cs' hvall
                  (by simpa using hvne) hrest hcont
              · rw [if_neg hok] at hb
                exact absurd hb (by simp)

/-! ### Scan lemmas -/

/-- If every route fails, the scan fails. -/
theorem scanRoutes_fails_of_allFail :
    ∀ (rs : RouteListM) (req : Request),
    allRoutesFail rs req = true → ∃ e, scanRoutes rs req = .failR e
  | .nil, _, _ => ⟨.notFound, rfl⟩
  | .cons rt rest, req, hall => by
      simp only [allRoutesFail, Bool.and_eq_true] at hall
      obtain ⟨e2, he2⟩ := scanRoutes_fails_of_allFail rest req hall.2
      cases hrt : routeMatch rt req with
      | okR h vs => rw [hrt] at hall; simp [MatchOutcome.isFail] at hall
      | fallbackR h e => rw [hrt] at hall; simp [MatchOutcome.isFail] at hall
      | failR e =>
          refine ⟨if e = .methodMismatch ∨ e2 = .methodMismatch
            then .methodMismatch else .notFound, ?_⟩
          simp only [scanRoutes, hrt, he2]

/-- If every route fails and some route records a method mismatch, the
scan fails with the method-mismatch soft error — the strongest recorded
soft error wins regardless of where in the list it was recorded. -/
theorem scanRoutes_mismatch :
    ∀ (rs : RouteListM) (req : Request),
    allRoutesFail rs req = true → someRouteMethodMismatch rs req = true →
    scanRoutes rs req = .failR .methodMismatch
  | .nil, _, _, hsome => by simp [someRouteMethodMismatch] at hsome
  | .cons rt rest, req, hall, hsome => by
      simp only [allRoutesFail, Bool.and_eq_true] at hall
      simp only [someRouteMethodMismatch, Bool.or_eq_true] at hsome
      obtain ⟨e2, he2⟩ := scanRoutes_fails_of_allFail rest req hall.2
      cases hrt : routeMatch rt req with
      | okR h vs => rw [hrt] at hall; simp [MatchOutcome.isFail] at hall
      | fallbackR h e => rw [hrt] at hall; simp [MatchOutcome.isFail] at hall
      | failR e =>
          simp only [scanRoutes, hrt, he2]
          rcases hsome with hmm | hmm
          · rw [hrt] at hmm
            cases e with
            | methodMismatch => simp
            | notFound => simp at hmm
            | metadataKeyNotFound => simp at hmm
          · have := scanRoutes_mismatch rest req hall.2 hmm
            rw [he2] at this
            cases this
            simp

/-! ## Claim C2: method mismatch selects the 405 fallback -/

/-- C2: when every route fails to match but some route's non-method
matchers pass while its method matcher fails (`someRouteMethodMismatch`),
`Router.Match` returns a failure carrying the `ErrMethodMismatch` soft
error — method-mismatch taking precedence over the not-found errors of
the other routes — and `ServeHTTP` invokes the method-not-allowed
handler: the plain 405 default when none is set, the custom handler when
one is. -/
theorem method_mismatch_selects_405 (rs : RouteListM) (req : Request)
    (mws : List (Handler → Handler)) (strict : Bool) (hcustom : Handler)
    (hfail : allRoutesFail rs req = true)
    (hmm : someRouteMethodMismatch rs req = true) :
    routerMatch (.mk rs none none mws strict) req = .failR .methodMismatch ∧
    serveHTTP (.mk rs none none mws strict) req = methodNotAllowedDefault req ∧
    (serveHTTP (.mk rs none none mws strict) req).status = 405 ∧
    serveHTTP (.mk rs none (some hcustom) mws strict) req = hcustom req := by
  have hscan := scanRoutes_mismatch rs req hfail hmm
  have hmatch : routerMatch (.mk rs none none mws strict) req
      = .failR .methodMismatch := by
    simp only [routerMatch, hscan]
  have hmatch2 : routerMatch (.mk rs none (some hcustom) mws strict) req
      = .fallbackR hcustom .methodMismatch := by
    simp only [routerMatch, hscan]
  refine ⟨hmatch, ?_, ?_, ?_⟩
  · simp only [serveHTTP, hmatch]
  · simp only [serveHTTP, hmatch]
    rfl
  · simp only [serveHTTP, hmatch2]

/-- Witness for C2: the `TestNoMatchMethodErrorHandler` configuration —
`/` restricted to GET and POST, a PUT request — satisfies both
hypotheses, and the dispatched response has status 405. -/
theorem method_mismatch_selects_405_witness :
    allRoutesFail oneRouteList putRootReq = true ∧
    someRouteMethodMismatch oneRouteList putRootReq = true ∧
    (serveHTTP (.mk oneRouteList none none [] false) putRootReq).status = 405 :=
  ⟨by decide, by decide,
    (method_mismatch_selects_405 oneRouteList putRootReq [] false
      (stringHandler "x") (by decide) (by decide)).2.2.1⟩

/-! ## Claim C3: middleware never observes unmatched requests -/

/-- C3: whatever middleware chain is installed on the router, the
response to a request that fails to match — whether the recorded soft
error is not-found or method-mismatch, and whether the fallback handler
is a custom one (surfacing as a fallback outcome) or a default (a plain
failure outcome) — is exactly the response with no middleware installed:
no middleware function in the router's chain is ever invoked. -/
theorem middleware_skipped_on_no_match (rs : RouteListM) (nfH mnaH : Option Handler)
    (strict : Bool) (req : Request)
    (hno : (routerMatch (RouterM.mk rs nfH mnaH [] strict) req).errOf ≠ none) :
    ∀ mws : List (Handler → Handler),
      serveHTTP (RouterM.mk rs nfH mnaH mws strict) req
        = serveHTTP (RouterM.mk rs nfH mnaH [] strict) req := by
  intro mws
  have hsame : routerMatch (RouterM.mk rs nfH mnaH mws strict) req
      = routerMatch (RouterM.mk rs nfH mnaH [] strict) req := rfl
  cases hr : routerMatch (RouterM.mk rs nfH mnaH [] strict) req with
  | okR h vs => rw [hr] at hno; simp [MatchOutcome.errOf] at hno
  | fallbackR h e =>
      simp only [serveHTTP, hsame, hr]
  | failR e =>
      cases e <;> simp only [serveHTTP, hsame, hr]

/-- Witness for C3: a not-found request on the one-route router with the
body-tagging middleware installed responds exactly as without it. -/
theorem middleware_skipped_on_no_match_witness :
    (routerMatch (RouterM.mk oneRouteList none none [] false) getNotFoundReq).errOf
      ≠ none ∧
    serveHTTP (RouterM.mk oneRouteList none none [tagMW] false) getNotFoundReq
      = serveHTTP (RouterM.mk oneRouteList none none [] false) getNotFoundReq :=
  ⟨by decide,
    middleware_skipped_on_no_match oneRouteList none none false getNotFoundReq
      (by decide) [tagMW]⟩

/-! ## Claim C6: strict-slash redirects -/

/-- C6: on a strict-slash route with a path template: a request whose
path fails the template directly but matches with its trailing slash
toggled is matched to a 301 redirect handler targeting the toggled path
with the query string preserved (this covers both directions: a template
ending in `/` with a slashless request, and vice versa); a request whose
path matches exactly is matched to the route's own handler with no
redirect; and a `PathPrefix` matcher never produces a strict-slash
redirect — it either matches to the route's own handler or fails. -/
theorem strict_slash_behavior (t : Tpl) (h : Handler)
    (meta : List (String × String)) (req : Request) :
    (∀ vs, matchParts t req.path.data = none →
      matchParts t (flipSlash req.path).data = some vs →
      routeMatch (.mk (.cons (.pathM t) .nil) (some h) true meta) req
        = .okR (redirectHandler (redirectURL (flipSlash req.path) req.rawQuery) 301) vs) ∧
    (∀ vs, matchParts t req.path.data = some vs →
      routeMatch (.mk (.cons (.pathM t) .nil) (some h) true meta) req = .okR h vs) ∧
    (∀ pr, matchPartsPre t req.path.data = some pr →
      routeMatch (.mk (.cons (.pathPreM t) .nil) (some h) true meta) req = .okR h pr.1) ∧
    (matchPartsPre t req.path.data = none →
      routeMatch (.mk (.cons (.pathPreM t) .nil) (some h) true meta) req
        = .failR .notFound) := by
  refine ⟨?_, ?_, ?_, ?_⟩
  · intro vs hdir hflip
    simp [routeMatch, matchersGo, hdir, hflip]
  · intro vs hdir
    simp [routeMatch, matchersGo, hdir]
  · intro pr hpre
    simp [routeMatch, matchersGo, hpre]
  · intro hpre
    simp [routeMatch, matchersGo, hpre]

/-- Witness for C6: the `TestStrictSlash` configuration — `/111/`
registered strict, `/111?q=1` requested — redirects to `/111/?q=1`; the
`/static/` path prefix matches `/static/logo.png` to its own handler. -/
theorem strict_slash_behavior_witness :
    matchParts slashTpl noSlashReq.path.data = none ∧
    matchParts slashTpl (flipSlash noSlashReq.path).data = some [] ∧
    routeMatch slashRoute noSlashReq = .okR (redirectHandler "/111/?q=1" 301) [] ∧
    matchPartsPre staticTpl logoReq.path.data = some ([], "logo.png".data) ∧
    routeMatch staticRoute logoReq = .okR (stringHandler "st") [] := by
  refine ⟨by decide, by decide, ?_, by decide, ?_⟩
  · have hs : redirectURL (flipSlash noSlashReq.path) noSlashReq.rawQuery
        = "/111/?q=1" := rfl
    have := (strict_slash_behavior slashTpl (stringHandler "s") [] noSlashReq).1
      [] (by decide) (by decide)
    rw [hs] at this
    exact this
  · exact (strict_slash_behavior staticTpl (stringHandler "st") [] logoReq).2.2.1
      ([], "logo.png".data) (by decide)

/-! ### Append and not-found scan lemmas -/

/-- Routes failing with not-found all fail. -/
theorem allRoutesFailNF_fail :
    ∀ (rs : RouteListM) (req : Request),
    allRoutesFailNF rs req = true → allRoutesFail rs req = true
  | .nil, _, _ => rfl
  | .cons rt rest, req, hall => by
      simp only [allRoutesFailNF, Bool.and_eq_true] at hall
      have hrest := allRoutesFailNF_fail rest req hall.2
      cases hrt : routeMatch rt req with
      | okR h vs => rw [hrt] at hall; simp at hall
      | fallbackR h e => rw [hrt] at hall; simp at hall
      | failR e =>
          simp only [allRoutesFail, Bool.and_eq_true, hrt, MatchOutcome.isFail]
          exact ⟨trivial, hrest⟩

/-- A scan over routes that all fail with not-found fails not-found. -/
theorem scanRoutes_allNF :
    ∀ (rs : RouteListM) (req : Request),
    allRoutesFailNF rs req = true → scanRoutes rs req = .failR .notFound
  | .nil, _, _ => rfl
  | .cons rt rest, req, hall => by
      simp only [allRoutesFailNF, Bool.and_eq_true] at hall
      have hrest := scanRoutes_allNF rest req hall.2
      cases hrt : routeMatch rt req with
      | okR h vs => rw [hrt] at hall; simp at hall
      | fallbackR h e => rw [hrt] at hall; simp at hall
      | failR e =>
          cases e with
          | methodMismatch => rw [hrt] at hall; simp at hall
          | notFound => simp [scanRoutes, hrt, hrest]
          | metadataKeyNotFound => rw [hrt] at hall; simp at hall

/-- Prepending routes that all fail preserves a fallback scan result. -/
theorem scanRoutes_append_fallback :
    ∀ (a : RouteListM) (rs : RouteListM) (req : Request) (h : Handler) (e : MuxErr),
    allRoutesFail a req = true → scanRoutes rs req = .fallbackR h e →
    scanRoutes (appendRL a rs) req = .fallbackR h e
  | .nil, rs, req, h, e, _, hs => hs
  | .cons rt rest, rs, req, h, e, hall, hs => by
      simp only [allRoutesFail, Bool.and_eq_true] at hall
      have hrest := scanRoutes_append_fallback rest rs req h e hall.2 hs
      cases hrt : routeMatch rt req with
      | okR h0 vs => rw [hrt] at hall; simp [MatchOutcome.isFail] at hall
      | fallbackR h0 e0 => rw [hrt] at hall; simp [MatchOutcome.isFail] at hall
      | failR e0 =>
          simp only [appendRL, scanRoutes, hrt, hrest]

/-- Prepending routes failing with not-found preserves a not-found scan. -/
theorem scanRoutes_append_failNF :
    ∀ (a : RouteListM) (rs : RouteListM) (req : Request),
    allRoutesFailNF a req = true → scanRoutes rs req = .failR .notFound →
    scanRoutes (appendRL a rs) req = .failR .notFound
  | .nil, rs, req, _, hs => hs
  | .cons rt rest, rs, req, hall, hs => by
      simp only [allRoutesFailNF, Bool.and_eq_true] at hall
      have hrest := scanRoutes_append_failNF rest rs req hall.2 hs
      cases hrt : routeMatch rt req with
      | okR h0 vs => rw [hrt] at hall; simp at hall
      | fallbackR h0 e0 => rw [hrt] at hall; simp at hall
      | failR e0 =>
          cases e0 with
          | methodMismatch => rw [hrt] at hall; simp at hall
          | notFound => simp [appendRL, scanRoutes, hrt, hrest]
          | metadataKeyNotFound => rw [hrt] at hall; simp at hall

/-! ## Claim C8: a subrouter's own not-found handler shadows ancestors -/

/-- C8: a request whose non-method matchers (here the path prefix) carry
it into a subrouter's sub-tree but which matches none of the subrouter's
routes is answered by the subrouter's own not-found handler when it has
one — the ancestor's handler is not consulted, whatever it is and
whatever routes surround the subrouter — and by the ancestor's not-found
handler when the sub-tree owns none and nothing else matches. -/
theorem subrouter_notfound_shadow
    (preA restB : RouteListM) (pre : Tpl) (crs : RouteListM)
    (cmws pmws : List (Handler → Handler)) (cstrict pstrict sstrict : Bool)
    (nfC nfP : Handler) (meta : List (String × String)) (req : Request)
    (pr : List (String × String) × List Char)
    (hA : allRoutesFailNF preA req = true)
    (hB : allRoutesFailNF restB req = true)
    (hpre : matchPartsPre pre req.path.data = some pr)
    (hcrs : allRoutesFailNF crs req = true) :
    serveHTTP
      (.mk (appendRL preA (.cons
        (.mk (.cons (.pathPreM pre)
            (.cons (.subM (.mk crs (some nfC) none cmws cstrict)) .nil))
          none sstrict meta) restB))
        (some nfP) none pmws pstrict) req = nfC req ∧
    serveHTTP
      (.mk (appendRL preA (.cons
        (.mk (.cons (.pathPreM pre)
            (.cons (.subM (.mk crs none none cmws cstrict)) .nil))
          none sstrict meta) restB))
        (some nfP) none pmws pstrict) req = nfP req := by
  have hscanC : scanRoutes crs req = .failR .notFound := scanRoutes_allNF crs req hcrs
  constructor
  · have hchild : routerMatch (.mk crs (some nfC) none cmws cstrict) req
        = .fallbackR nfC .notFound := by
      simp only [routerMatch, hscanC]
    have hroute : routeMatch
        (.mk (.cons (.pathPreM pre)
          (.cons (.subM (.mk crs (some nfC) none cmws cstrict)) .nil))
          none sstrict meta) req = .fallbackR nfC .notFound := by
      simp [routeMatch, matchersGo, hpre, hchild]
    have hscan : scanRoutes (.cons
        (.mk (.cons (.pathPreM pre)
          (.cons (.subM (.mk crs (some nfC) none cmws cstrict)) .nil))
          none sstrict meta) restB) req = .fallbackR nfC .notFound := by
      simp only [scanRoutes, hroute]
    have happ := scanRoutes_append_fallback preA _ req nfC .notFound
      (allRoutesFailNF_fail preA req hA) hscan
    simp only [serveHTTP, routerMatch, happ]
  · have hchild : routerMatch (.mk crs none none cmws cstrict) req
        = .failR .notFound := by
      simp only [routerMatch, hscanC]
    have hroute : routeMatch
        (.mk (.cons (.pathPreM pre)
          (.cons (.subM (.mk crs none none cmws cstrict)) .nil))
          none sstrict meta) req = .failR .notFound := by
      simp [routeMatch, matchersGo, hpre, hchild]
    have hscan : scanRoutes (.cons
        (.mk (.cons (.pathPreM pre)
          (.cons (.subM (.mk crs none none cmws cstrict)) .nil))
          none sstrict meta) restB) req = .failR .notFound := by
      simp [scanRoutes, hroute, scanRoutes_allNF restB req hB]
    have happ := scanRoutes_append_failNF preA _ req hA hscan
    simp only [serveHTTP, routerMatch, happ]

/-- Witness for C8: the `TestSubrouterErrorHandling` configuration — the
`/bign8` prefix subrouter with its own 404 handler answers
`/bign8/was/here` itself; without its own handler the parent's 404
handler answers. -/
theorem subrouter_notfound_shadow_witness :
    matchPartsPre [TplPart.lit "/bign8".data] bign8Req.path.data
      = some ([], "/was/here".data) ∧
    serveHTTP
      (.mk (.cons
        (.mk (.cons (.pathPreM [TplPart.lit "/bign8".data])
            (.cons (.subM bign8Child) .nil)) none false [])
        .nil) (some (stringHandler "super404")) none [] false) bign8Req
      = stringHandler "sub404" bign8Req := by
  refine ⟨by decide, ?_⟩
  exact (subrouter_notfound_shadow .nil .nil [TplPart.lit "/bign8".data]
    (routesOf bign8Child) [] [] false false false
    (stringHandler "sub404") (stringHandler "super404") [] bign8Req
    ([], "/was/here".data) rfl rfl (by decide) (by decide)).1

/-! ### Matching ignores the request context -/

mutual
/-- Router matching does not read the request context. -/
theorem routerMatch_ctx (r : RouterM) (req : Request) (c : List (CtxKey × CtxVal)) :
    routerMatch r { req with ctx := c } = routerMatch r req := by
  cases r with
  | mk routes nfH mnaH mws strict =>
      simp only [routerMatch, scanRoutes_ctx routes req c]

/-- The route scan does not read the request context. -/
theorem scanRoutes_ctx (rs : RouteListM) (req : Request) (c : List (CtxKey × CtxVal)) :
    scanRoutes rs { req with ctx := c } = scanRoutes rs req := by
  cases rs with
  | nil => rfl
  | cons rt rest =>
      simp only [scanRoutes, routeMatch_ctx rt req c, scanRoutes_ctx rest req c]

/-- Route matching does not read the request context. -/
theorem routeMatch_ctx (rt : RouteM) (req : Request) (c : List (CtxKey × CtxVal)) :
    routeMatch rt { req with ctx := c } = routeMatch rt req := by
  cases rt with
  | mk ms h strict meta =>
      simp only [routeMatch, matchersGo_ctx ms req c [] false none none h strict]

/-- The matcher loop does not read the request context. -/
theorem matchersGo_ctx (ms : MatcherListM) (req : Request) (c : List (CtxKey × CtxVal))
    (vars : List (String × String)) (mm : Bool)
    (subH : Option (Handler × Option MuxErr)) (redirH routeH : Option Handler)
    (strict : Bool) :
    matchersGo ms { req with ctx := c } vars mm subH redirH routeH strict
      = matchersGo ms req vars mm subH redirH routeH strict := by
  cases ms with
  | nil => rfl
  | cons m rest =>
      cases m with
      | hostM t =>
          cases hm : matchParts t req.host.data with
          | some vs => simp only [matchersGo, hm, matchersGo_ctx rest req c]
          | none => simp only [matchersGo, hm]
      | pathM t =>
          cases hm : matchParts t req.path.data with
          | some vs => simp only [matchersGo, hm, matchersGo_ctx rest req c]
          | none =>
              cases hst : strict with
              | false => simp only [matchersGo, hm, hst, Bool.false_eq_true, if_false]
              | true =>
                  cases hf : matchParts t (flipSlash req.path).data with
                  | some vs =>
                      simp only [matchersGo, hm, hf, hst, if_true,
                        matchersGo_ctx rest req c]
                  | none => simp only [matchersGo, hm, hf, hst, if_true]
      | pathPreM t =>
          cases hm : matchPartsPre t req.path.data with
          | some pr => simp only [matchersGo, hm, matchersGo_ctx rest req c]
          | none => simp only [matchersGo, hm]
      | methodsM l =>
          cases hc : l.contains req.method with
          | true => simp only [matchersGo, hc, if_true, matchersGo_ctx rest req c]
          | false =>
              simp only [matchersGo, hc, Bool.false_eq_true, if_false,
                matchersGo_ctx rest req c]
      | queryM key t =>
          cases hq : lookupFirst key req.query with
          | some v =>
              cases hm : matchParts t v.data with
              | some vs => simp only [matchersGo, hq, hm, matchersGo_ctx rest req c]
              | none => simp only [matchersGo, hq, hm]
          | none => simp only [matchersGo, hq]
      | subM child =>
          cases hr : routerMatch child req with
          | okR h vs =>
              simp only [matchersGo, routerMatch_ctx child req c, hr,
                matchersGo_ctx rest req c]
          | fallbackR h e =>
              simp only [matchersGo, routerMatch_ctx child req c, hr,
                matchersGo_ctx rest req c]
          | failR e =>
              simp only [matchersGo, routerMatch_ctx child req c, hr]
end

/-- Method aggregation does not read the request context. -/
theorem allMethodsGo_ctx (req : Request) (c : List (CtxKey × CtxVal)) :
    ∀ rs : RouteListM, allMethodsGo { req with ctx := c } rs = allMethodsGo req rs
  | .nil => rfl
  | .cons rt rest => by
      simp only [allMethodsGo, relevantForCORS, routeMatch_ctx rt req c,
        allMethodsGo_ctx req c rest]

/-- Method aggregation sees through `setVars`. -/
theorem allMethodsForRoute_setVars (r : RouterM) (req : Request)
    (vs : List (String × String)) :
    allMethodsForRoute r (setVars req vs) = allMethodsForRoute r req := by
  cases req with
  | mk m h p rq q ctx =>
      exact allMethodsGo_ctx _ _ (routesOf r)

/-- Reading back the header a `setHeader` wrote. -/
theorem getHeader_setHeader (resp : Response) (k v : String) :
    getHeader (setHeader resp k v) k = some v := by
  simp [getHeader, setHeader, lookupFirst]

/-! ## Claim C4: CORS method aggregation on OPTIONS requests -/

/-- C4 (amended): for an OPTIONS request matched within router R wrapped
by its CORS method middleware, with the aggregation over the relevant
routes (those that match or fail only on the method, i.e. share the
request's path) succeeding with method list `l`: when some sibling
declares OPTIONS the middleware sets `Access-Control-Allow-Methods` to
the comma-joined list and the originally matched handler still produces
the response status and body; when no sibling declares OPTIONS — or, a
fortiori, when a relevant route declares no methods at all and the
aggregation fails — the header is omitted and the matched handler's
response is returned untouched.  (The unconditional "sets the header" of
the original claim is refuted by `cors_options_header_missing_cex`.) -/
theorem cors_options_aggregation
    (rs : RouteListM) (nfH mnaH : Option Handler) (strict : Bool)
    (req : Request) (h : Handler) (vs : List (String × String)) (l : List String)
    (hopt : req.method = "OPTIONS")
    (hmatch : routerMatch (RouterM.mk rs nfH mnaH [] strict) req = .okR h vs)
    (hagg : allMethodsForRoute (RouterM.mk rs nfH mnaH [] strict) req = some l) :
    (l.contains "OPTIONS" = true →
      getHeader
        (serveHTTP (RouterM.mk rs nfH mnaH
          [corsMethodMiddleware (RouterM.mk rs nfH mnaH [] strict)] strict) req)
        "Access-Control-Allow-Methods" = some (joinComma l) ∧
      (serveHTTP (RouterM.mk rs nfH mnaH
          [corsMethodMiddleware (RouterM.mk rs nfH mnaH [] strict)] strict) req).status
        = (h (setVars req vs)).status ∧
      (serveHTTP (RouterM.mk rs nfH mnaH
          [corsMethodMiddleware (RouterM.mk rs nfH mnaH [] strict)] strict) req).body
        = (h (setVars req vs)).body) ∧
    (l.contains "OPTIONS" = false →
      serveHTTP (RouterM.mk rs nfH mnaH
          [corsMethodMiddleware (RouterM.mk rs nfH mnaH [] strict)] strict) req
        = h (setVars req vs)) := by
  have hmatchW : routerMatch (RouterM.mk rs nfH mnaH
      [corsMethodMiddleware (RouterM.mk rs nfH mnaH [] strict)] strict) req
      = .okR h vs := hmatch
  have hserve : serveHTTP (RouterM.mk rs nfH mnaH
      [corsMethodMiddleware (RouterM.mk rs nfH mnaH [] strict)] strict) req
      = corsMethodMiddleware (RouterM.mk rs nfH mnaH [] strict) h (setVars req vs) := by
    simp only [serveHTTP, hmatchW, wrapChain, middlewaresOf, List.foldr]
  have haggV : allMethodsForRoute (RouterM.mk rs nfH mnaH [] strict) (setVars req vs)
      = some l := by
    rw [allMethodsForRoute_setVars, hagg]
  constructor
  · intro hin
    rw [hserve]
    simp only [corsMethodMiddleware, haggV, hin, if_true]
    exact ⟨getHeader_setHeader _ _ _, rfl, rfl⟩
  · intro hout
    rw [hserve]
    simp only [corsMethodMiddleware, haggV, hout, Bool.false_eq_true, if_false]

/-- C4 counterexample: the claim's unconditional "sets the header" fails.
Routes on `/foo`: one declaring GET/PUT/PATCH, one declaring no methods.
The OPTIONS request is matched (the methodless route's handler "b"
responds), the method-declaring sibling is scanned as relevant, yet the
`Access-Control-Allow-Methods` header is absent — no sibling declares
OPTIONS and the matched route's missing method set makes the aggregation
fail — where the claim required the comma-joined sibling union. -/
theorem cors_options_header_missing_cex :
    optionsFooReq.method = "OPTIONS" ∧
    (routerMatch corsBase2 optionsFooReq).varsOf = some [] ∧
    relevantForCORS fooGetRoute optionsFooReq = true ∧
    routeGetMethods fooGetRoute = some ["GET", "PUT", "PATCH"] ∧
    (serveHTTP corsRouter2 optionsFooReq).body = "b" ∧
    getHeader (serveHTTP corsRouter2 optionsFooReq) "Access-Control-Allow-Methods"
      = none := by
  refine ⟨rfl, by decide, by decide, by decide, by decide, by decide⟩

/-- Witness for C4: the test configuration with GET/PUT/PATCH and OPTIONS
siblings on `/foo` — the OPTIONS request gets the aggregated header
`GET,PUT,PATCH,OPTIONS` and handler "b" still responds. -/
theorem cors_options_aggregation_witness :
    optionsFooReq.method = "OPTIONS" ∧
    routerMatch corsBase3 optionsFooReq = .okR (stringHandler "b") [] ∧
    allMethodsForRoute corsBase3 optionsFooReq
      = some ["GET", "PUT", "PATCH", "OPTIONS"] ∧
    getHeader (serveHTTP corsRouter3 optionsFooReq) "Access-Control-Allow-Methods"
      = some "GET,PUT,PATCH,OPTIONS" ∧
    (serveHTTP corsRouter3 optionsFooReq).body = "b" := by
  refine ⟨rfl, rfl, by decide, ?_, ?_⟩
  · exact ((cors_options_aggregation (.cons fooGetRoute (.cons fooOptionsRoute .nil))
      none none false optionsFooReq (stringHandler "b") []
      ["GET", "PUT", "PATCH", "OPTIONS"] rfl rfl rfl).1 (by decide)).1
  · have := ((cors_options_aggregation (.cons fooGetRoute (.cons fooOptionsRoute .nil))
      none none false optionsFooReq (stringHandler "b") []
      ["GET", "PUT", "PATCH", "OPTIONS"] rfl rfl rfl).1 (by decide)).2.2
    exact this

/-! ## Claim C5: CORS method aggregation on non-OPTIONS requests -/

/-- C5 (amended): for a non-OPTIONS request matched within router R
wrapped by its CORS method middleware, the same aggregation over the
relevant routes is performed; when some sibling declares OPTIONS the
`Access-Control-Allow-Methods` header is set informationally while the
response status and body remain the matched handler's; when no sibling
declares OPTIONS the header is omitted and the response is untouched.
(The original claim's unconditional header is refuted by
`cors_non_options_header_missing_cex`.) -/
theorem cors_non_options_aggregation
    (rs : RouteListM) (nfH mnaH : Option Handler) (strict : Bool)
    (req : Request) (h : Handler) (vs : List (String × String)) (l : List String)
    (hnopt : req.method ≠ "OPTIONS")
    (hmatch : routerMatch (RouterM.mk rs nfH mnaH [] strict) req = .okR h vs)
    (hagg : allMethodsForRoute (RouterM.mk rs nfH mnaH [] strict) req = some l) :
    (l.contains "OPTIONS" = true →
      getHeader
        (serveHTTP (RouterM.mk rs nfH mnaH
          [corsMethodMiddleware (RouterM.mk rs nfH mnaH [] strict)] strict) req)
        "Access-Control-Allow-Methods" = some (joinComma l) ∧
      (serveHTTP (RouterM.mk rs nfH mnaH
          [corsMethodMiddleware (RouterM.mk rs nfH mnaH [] strict)] strict) req).status
        = (h (setVars req vs)).status ∧
      (serveHTTP (RouterM.mk rs nfH mnaH
          [corsMethodMiddleware (RouterM.mk rs nfH mnaH [] strict)] strict) req).body
        = (h (setVars req vs)).body) ∧
    (l.contains "OPTIONS" = false →
      serveHTTP (RouterM.mk rs nfH mnaH
          [corsMethodMiddleware (RouterM.mk rs nfH mnaH [] strict)] strict) req
        = h (setVars req vs)) := by
  have hmatchW : routerMatch (RouterM.mk rs nfH mnaH
      [corsMethodMiddleware (RouterM.mk rs nfH mnaH [] strict)] strict) req
      = .okR h vs := hmatch
  have hserve : serveHTTP (RouterM.mk rs nfH mnaH
      [corsMethodMiddleware (RouterM.mk rs nfH mnaH [] strict)] strict) req
      = corsMethodMiddleware (RouterM.mk rs nfH mnaH [] strict) h (setVars req vs) := by
    simp only [serveHTTP, hmatchW, wrapChain, middlewaresOf, List.foldr]
  have haggV : allMethodsForRoute (RouterM.mk rs nfH mnaH [] strict) (setVars req vs)
      = some l := by
    rw [allMethodsForRoute_setVars, hagg]
  constructor
  · intro hin
    rw [hserve]
    simp only [corsMethodMiddleware, haggV, hin, if_true]
    exact ⟨getHeader_setHeader _ _ _, rfl, rfl⟩
  · intro hout
    rw [hserve]
    simp only [corsMethodMiddleware, haggV, hout, Bool.false_eq_true, if_false]

/-- C5 counterexample: the claim's "sets the header informationally"
fails when no sibling declares OPTIONS — the first
`TestCORSMethodMiddleware` case: a GET request on `/foo` whose only route
declares GET/PUT/PATCH is matched and aggregation succeeds with a
nonempty list, yet the header is absent where the claim required
`GET,PUT,PATCH`. -/
theorem cors_non_options_header_missing_cex :
    getFooReq.method ≠ "OPTIONS" ∧
    (routerMatch corsBase1 getFooReq).varsOf = some [] ∧
    allMethodsForRoute corsBase1 getFooReq = some ["GET", "PUT", "PATCH"] ∧
    (serveHTTP corsRouter1 getFooReq).body = "a" ∧
    getHeader (serveHTTP corsRouter1 getFooReq) "Access-Control-Allow-Methods"
      = none := by
  refine ⟨by decide, by decide, by decide, by decide, by decide⟩

/-- Witness for C5: the "sets on non OPTIONS" test case — a GET request
on `/foo` with GET/PUT/PATCH and OPTIONS siblings gets the informational
header `GET,PUT,PATCH,OPTIONS` while handler "a" responds untouched. -/
theorem cors_non_options_aggregation_witness :
    getFooReq.method ≠ "OPTIONS" ∧
    routerMatch corsBase3 getFooReq = .okR (stringHandler "a") [] ∧
    allMethodsForRoute corsBase3 getFooReq
      = some ["GET", "PUT", "PATCH", "OPTIONS"] ∧
    getHeader (serveHTTP corsRouter3 getFooReq) "Access-Control-Allow-Methods"
      = some "GET,PUT,PATCH,OPTIONS" ∧
    (serveHTTP corsRouter3 getFooReq).body = "a" := by
  refine ⟨by decide, rfl, by decide, ?_, ?_⟩
  · exact ((cors_non_options_aggregation (.cons fooGetRoute (.cons fooOptionsRoute .nil))
      none none false getFooReq (stringHandler "a") []
      ["GET", "PUT", "PATCH", "OPTIONS"] (by decide) rfl rfl).1 (by decide)).1
  · exact ((cors_non_options_aggregation (.cons fooGetRoute (.cons fooOptionsRoute .nil))
      none none false getFooReq (stringHandler "a") []
      ["GET", "PUT", "PATCH", "OPTIONS"] (by decide) rfl rfl).1 (by decide)).2.2

/-! ## Claim C7: capturing groups panic at registration time -/

/-- C7: registering a route whose path template contains a user-supplied
placeholder pattern that itself introduces an additional regex capturing
group — the `capturingTemplate` of `TestPanicOnCapturingGroups` — panics
immediately at registration time (`RegOutcome.panicked`), rather than
being stored as a deferred lazy error (`RegOutcome.deferredErr`). -/
theorem registration_panics_on_capturing_groups :
    registerTemplate .pathK capturingTemplate = .panicked .capturingGroup := rfl

/-! ## Claim C9: SetURLVars returns a vars-carrying shallow copy -/

/-- C9: `SetURLVars r vs` returns a request whose context carries `vs` as
the URL variables (`Vars` reads them back), while every other request
field is that of `r` and the context merely gains the vars entry — the
shallow copy.  In this pure embedding the argument `r` itself is
necessarily untouched, so a caller must use the returned request to
observe the variables. -/
theorem setURLVars_shallow_copy (r : Request) (vs : List (String × String)) :
    Vars (SetURLVars r vs) = vs ∧
    (SetURLVars r vs).method = r.method ∧
    (SetURLVars r vs).host = r.host ∧
    (SetURLVars r vs).path = r.path ∧
    (SetURLVars r vs).rawQuery = r.rawQuery ∧
    (SetURLVars r vs).query = r.query ∧
    (SetURLVars r vs).ctx = (CtxKey.varsKey, CtxVal.varsV vs) :: r.ctx := by
  refine ⟨?_, rfl, rfl, rfl, rfl, rfl, rfl⟩
  simp [Vars, SetURLVars, setVars, contextSet, contextGet]

/-! ## Claim C10: the route metadata accessors -/

/-- C10: metadata set via `Metadata(key, value)` is returned by
`GetMetadataValue` (`.ok`) and `GetMetadataValueOr`; an absent key yields
the `ErrMetadataKeyNotFound` error and the fallback value respectively;
and `GetMetadata` returns exactly the entries set, each `Metadata` call
adding its pair and overwriting the key. -/
theorem metadata_accessors (rt : RouteM) (k v fb : String) :
    getMetadataValue (routeWithMetadata rt k v) k = .ok v ∧
    getMetadataValueOr (routeWithMetadata rt k v) k fb = v ∧
    (lookupFirst k (getMetadata rt) = none →
      getMetadataValue rt k = .error .metadataKeyNotFound ∧
      getMetadataValueOr rt k fb = fb) ∧
    (∀ v0, lookupFirst k (getMetadata rt) = some v0 →
      getMetadataValue rt k = .ok v0 ∧ getMetadataValueOr rt k fb = v0) ∧
    getMetadata (routeWithMetadata rt k v)
      = (k, v) :: (getMetadata rt).filter (fun p => p.1 ≠ k) := by
  cases rt with
  | mk ms h s meta =>
      refine ⟨?_, ?_, ?_, ?_, rfl⟩
      · simp [getMetadataValue, routeWithMetadata, getMetadata, lookupFirst]
      · simp [getMetadataValueOr, routeWithMetadata, getMetadata, lookupFirst]
      · intro hnone
        simp [getMetadataValue, getMetadataValueOr, getMetadata] at hnone ⊢
        simp [hnone]
      · intro v0 hsome
        simp [getMetadataValue, getMetadataValueOr, getMetadata] at hsome ⊢
        simp [hsome]

/-- Witness for the metadata theorem: the keys of `TestRouteMetadata` on a
concrete route. -/
theorem metadata_accessors_witness :
    getMetadataValue (routeWithMetadata (.mk .nil none false []) "key" "value") "key"
      = .ok "value" ∧
    lookupFirst "key2" (getMetadata (.mk .nil none false [] : RouteM)) = none ∧
    getMetadataValue (.mk .nil none false [] : RouteM) "key2"
      = .error .metadataKeyNotFound ∧
    getMetadataValueOr (.mk .nil none false [] : RouteM) "key2" "value2" = "value2" := by
  refine ⟨(metadata_accessors (.mk .nil none false []) "key" "value" "fb").1, rfl, ?_, ?_⟩
  · exact ((metadata_accessors (.mk .nil none false []) "key2" "v" "value2").2.2.1 rfl).1
  · exact ((metadata_accessors (.mk .nil none false []) "key2" "v" "value2").2.2.1 rfl).2

/-! ### Route-level round-trip lemmas -/

/-- When every matcher passes binding its template's variables, the
matcher loop succeeds with the route's handler and the accumulated
variables in matcher order. -/
theorem matchersGo_allPass :
    ∀ (ms : MatcherListM) (req : Request) (σ : String → Option String)
      (vars : List (String × String)) (h : Handler) (strict : Bool),
    allPass req σ ms →
    matchersGo ms req vars false none none (some h) strict
      = .okR h (vars ++ routeVars ms σ)
  | .nil, req, σ, vars, h, strict, _ => by
      simp [matchersGo, routeVars]
  | .cons m rest, req, σ, vars, h, strict, hall => by
      obtain ⟨hm, hrest⟩ := hall
      cases m with
      | hostM t =>
          simp only [matcherPasses] at hm
          simp only [matchersGo, hm, routeVars,
            matchersGo_allPass rest req σ (vars ++ varsOf t σ) h strict hrest,
            List.append_assoc]
      | pathM t =>
          simp only [matcherPasses] at hm
          simp only [matchersGo, hm, routeVars,
            matchersGo_allPass rest req σ (vars ++ varsOf t σ) h strict hrest,
            List.append_assoc]
      | queryM k t =>
          obtain ⟨v, hq, hv⟩ := hm
          simp only [matchersGo, hq, hv, routeVars,
            matchersGo_allPass rest req σ (vars ++ varsOf t σ) h strict hrest,
            List.append_assoc]
      | pathPreM t => simp [matcherPasses] at hm
      | methodsM l => simp [matcherPasses] at hm
      | subM child => simp [matcherPasses] at hm

/-- Each built query pair can be looked up by its key when the declared
keys are distinct. -/
theorem lookupFirst_builtQueries :
    ∀ (qs : List (String × Tpl)) (σ : String → Option String)
      (ql : List (String × String)) (k : String) (t : Tpl),
    builtQueries qs σ = some ql → (qs.map (fun p => p.1)).Nodup →
    (k, t) ∈ qs →
    ∃ cs, buildParts t σ = some cs ∧ lookupFirst k ql = some (String.mk cs) := by
  intro qs
  induction qs with
  | nil => intro σ ql k t hb hnd hmem; simp at hmem
  | cons q qs ih =>
      intro σ ql k t hb hnd hmem
      obtain ⟨k0, t0⟩ := q
      cases hb0 : buildParts t0 σ with
      | none => simp [builtQueries, hb0] at hb
      | some v0 =>
          cases hbr : builtQueries qs σ with
          | none => simp [builtQueries, hb0, hbr] at hb
          | some rest =>
              have hql : ql = (k0, String.mk v0) :: rest := by
                simp only [builtQueries, hb0, hbr, Option.some.injEq] at hb
                exact hb.symm
              subst hql
              simp only [List.map_cons, List.nodup_cons] at hnd
              rcases List.mem_cons.mp hmem with heq | hmem2
              · have hk : k = k0 := congrArg Prod.fst heq
                have ht : t = t0 := congrArg Prod.snd heq
                subst hk
                subst ht
                exact ⟨v0, hb0, by simp [lookupFirst]⟩
              · have hkmem : k ∈ qs.map (fun p => p.1) :=
                  List.mem_map.mpr ⟨(k, t), hmem2, rfl⟩
                have hkne : k0 ≠ k := by
                  intro he
                  subst he
                  exact hnd.1 hkmem
                obtain ⟨cs, hcs, hl⟩ := ih σ rest k t hbr hnd.2 hmem2
                exact ⟨cs, hcs, by simp [lookupFirst, hkne, hl]⟩

/-- A host matcher contributes to the host-matcher count. -/
theorem hostM_mem_count :
    ∀ (ms : MatcherListM) (t : Tpl),
    MatcherM.hostM t ∈ msToList ms → 1 ≤ hostCount ms
  | .nil, t, hmem => by simp [msToList] at hmem
  | .cons m rest, t, hmem => by
      rcases List.mem_cons.mp hmem with heq | hmem2
      · subst heq; simp [hostCount]
      · have := hostM_mem_count rest t hmem2
        cases m <;> simp [hostCount] <;> omega

/-- A path matcher contributes to the path-matcher count. -/
theorem pathM_mem_count :
    ∀ (ms : MatcherListM) (t : Tpl),
    MatcherM.pathM t ∈ msToList ms → 1 ≤ pathCount ms
  | .nil, t, hmem => by simp [msToList] at hmem
  | .cons m rest, t, hmem => by
      rcases List.mem_cons.mp hmem with heq | hmem2
      · subst heq; simp [pathCount]
      · have := pathM_mem_count rest t hmem2
        cases m <;> simp [pathCount] <;> omega

/-- With at most one host matcher, a member host template is the route's
host template. -/
theorem firstHostTpl_of_mem :
    ∀ (ms : MatcherListM) (t : Tpl), hostCount ms ≤ 1 →
    MatcherM.hostM t ∈ msToList ms → firstHostTpl ms = some t
  | .nil, t, _, hmem => by simp [msToList] at hmem
  | .cons m rest, t, hcnt, hmem => by
      rcases List.mem_cons.mp hmem with heq | hmem2
      · subst heq; rfl
      · cases m with
        | hostM t0 =>
            exfalso
            have h1 := hostM_mem_count rest t hmem2
            simp [hostCount] at hcnt
            omega
        | pathM t0 =>
            simpa [firstHostTpl] using
              firstHostTpl_of_mem rest t (by simpa [hostCount] using hcnt) hmem2
        | pathPreM t0 =>
            simpa [firstHostTpl] using
              firstHostTpl_of_mem rest t (by simpa [hostCount] using hcnt) hmem2
        | methodsM l =>
            simpa [firstHostTpl] using
              firstHostTpl_of_mem rest t (by simpa [hostCount] using hcnt) hmem2
        | queryM k0 t0 =>
            simpa [firstHostTpl] using
              firstHostTpl_of_mem rest t (by simpa [hostCount] using hcnt) hmem2
        | subM child =>
            simpa [firstHostTpl] using
              firstHostTpl_of_mem rest t (by simpa [hostCount] using hcnt) hmem2

/-- With at most one path matcher, a member path template is the route's
path template. -/
theorem firstPathTpl_of_mem :
    ∀ (ms : MatcherListM) (t : Tpl), pathCount ms ≤ 1 →
    MatcherM.pathM t ∈ msToList ms → firstPathTpl ms = some t
  | .nil, t, _, hmem => by simp [msToList] at hmem
  | .cons m rest, t, hcnt, hmem => by
      rcases List.mem_cons.mp hmem with heq | hmem2
      · subst heq; rfl
      · cases m with
        | pathM t0 =>
            exfalso
            have h1 := pathM_mem_count rest t hmem2
            simp [pathCount] at hcnt
            omega
        | hostM t0 =>
            simpa [firstPathTpl] using
              firstPathTpl_of_mem rest t (by simpa [pathCount] using hcnt) hmem2
        | pathPreM t0 =>
            simpa [firstPathTpl] using
              firstPathTpl_of_mem rest t (by simpa [pathCount] using hcnt) hmem2
        | methodsM l =>
            simpa [firstPathTpl] using
              firstPathTpl_of_mem rest t (by simpa [pathCount] using hcnt) hmem2
        | queryM k0 t0 =>
            simpa [firstPathTpl] using
              firstPathTpl_of_mem rest t (by simpa [pathCount] using hcnt) hmem2
        | subM child =>
            simpa [firstPathTpl] using
              firstPathTpl_of_mem rest t (by simpa [pathCount] using hcnt) hmem2

/-- A member query matcher's pair is among the route's query templates. -/
theorem queryM_mem_queryTpls :
    ∀ (ms : MatcherListM) (k : String) (t : Tpl),
    MatcherM.queryM k t ∈ msToList ms → (k, t) ∈ queryTplsOf ms
  | .nil, k, t, hmem => by simp [msToList] at hmem
  | .cons m rest, k, t, hmem => by
      rcases List.mem_cons.mp hmem with heq | hmem2
      · subst heq; simp [queryTplsOf]
      · have := queryM_mem_queryTpls rest k t hmem2
        cases m <;> simp [queryTplsOf, this]

/-- The template a matcher matches with, if any. -/
def tplOfMatcher : MatcherM → Option Tpl
  | .hostM t => some t
  | .pathM t => some t
  | .queryM _ t => some t
  | _ => none

/-- Every member template of a separated route is separated. -/
theorem sepAll_mem :
    ∀ (ms : MatcherListM) (m : MatcherM) (t : Tpl), sepAllB ms = true →
    m ∈ msToList ms → tplOfMatcher m = some t → separatedB t = true
  | .nil, m, t, _, hmem, _ => by simp [msToList] at hmem
  | .cons m0 rest, m, t, hsep, hmem, htpl => by
      rcases List.mem_cons.mp hmem with heq | hmem2
      · subst heq
        cases m with
        | hostM t0 =>
            cases htpl
            simp only [sepAllB, Bool.and_eq_true] at hsep
            exact hsep.1
        | pathM t0 =>
            cases htpl
            simp only [sepAllB, Bool.and_eq_true] at hsep
            exact hsep.1
        | queryM k0 t0 =>
            cases htpl
            simp only [sepAllB, Bool.and_eq_true] at hsep
            exact hsep.1
        | pathPreM t0 => simp [tplOfMatcher] at htpl
        | methodsM l => simp [tplOfMatcher] at htpl
        | subM child => simp [tplOfMatcher] at htpl
      · have hrest : sepAllB rest = true := by
          cases m0 <;> simp only [sepAllB, Bool.and_eq_true] at hsep <;>
            first
              | exact hsep.2
              | exact hsep
        exact sepAll_mem rest m t hrest hmem2 htpl

/-- Every matcher of a URL-only route is a host, path or query matcher. -/
theorem onlyUrl_mem :
    ∀ (ms : MatcherListM) (m : MatcherM), onlyUrlMatchers ms = true →
    m ∈ msToList ms →
    (∃ t, m = .hostM t) ∨ (∃ t, m = .pathM t) ∨ (∃ k t, m = .queryM k t)
  | .nil, m, _, hmem => by simp [msToList] at hmem
  | .cons m0 rest, m, hurl, hmem => by
      rcases List.mem_cons.mp hmem with heq | hmem2
      · subst heq
        cases m with
        | hostM t => exact Or.inl ⟨t, rfl⟩
        | pathM t => exact Or.inr (Or.inl ⟨t, rfl⟩)
        | queryM k t => exact Or.inr (Or.inr ⟨k, t, rfl⟩)
        | pathPreM t => simp [onlyUrlMatchers] at hurl
        | methodsM l => simp [onlyUrlMatchers] at hurl
        | subM child => simp [onlyUrlMatchers] at hurl
      · have hrest : onlyUrlMatchers rest = true := by
          cases m0 <;> simp only [onlyUrlMatchers] at hurl <;>
            first
              | exact hurl
              | exact absurd hurl (by simp)
        exact onlyUrl_mem rest m hrest hmem2

/-- Member-wise passing gives `allPass`. -/
theorem allPass_of_mem :
    ∀ (ms : MatcherListM) (req : Request) (σ : String → Option String),
    (∀ m, m ∈ msToList ms → matcherPasses req σ m) → allPass req σ ms
  | .nil, _, _, _ => trivial
  | .cons m rest, req, σ, hmem =>
      ⟨hmem m (List.mem_cons_self m (msToList rest)),
        allPass_of_mem rest req σ (fun m2 hm2 => hmem m2 (List.mem_cons_of_mem m hm2))⟩

/-- A binding reported by `varsOf` is the binding map's value. -/
theorem varsOf_mem (t : Tpl) (σ : String → Option String) (n v : String) :
    (n, v) ∈ varsOf t σ → σ n = some v := by
  intro hmem
  simp only [varsOf, List.mem_filterMap] at hmem
  obtain ⟨p, _, hp⟩ := hmem
  cases p with
  | lit s => simp at hp
  | varp n0 cls =>
      simp only [Option.map_eq_some'] at hp
      obtain ⟨v0, hv0, heq⟩ := hp
      cases heq
      exact hv0

/-- A binding reported by `routeVars` is the binding map's value. -/
theorem routeVars_mem :
    ∀ (ms : MatcherListM) (σ : String → Option String) (n v : String),
    (n, v) ∈ routeVars ms σ → σ n = some v
  | .nil, σ, n, v, hmem => by simp [routeVars] at hmem
  | .cons m rest, σ, n, v, hmem => by
      cases m with
      | hostM t =>
          rcases List.mem_append.mp hmem with hl | hr
          · exact varsOf_mem t σ n v hl
          · exact routeVars_mem rest σ n v hr
      | pathM t =>
          rcases List.mem_append.mp hmem with hl | hr
          · exact varsOf_mem t σ n v hl
          · exact routeVars_mem rest σ n v hr
      | queryM k t =>
          rcases List.mem_append.mp hmem with hl | hr
          · exact varsOf_mem t σ n v hl
          · exact routeVars_mem rest σ n v hr
      | pathPreM t => exact routeVars_mem rest σ n v hmem
      | methodsM l => exact routeVars_mem rest σ n v hmem
      | subM child => exact routeVars_mem rest σ n v hmem

/-- What a successful `routeURL` says about the request it builds. -/
theorem routeURL_spec (ms : MatcherListM) (h0 : Option Handler) (strict : Bool)
    (meta : List (String × String)) (σ : String → Option String) (req : Request)
    (hb : routeURL (.mk ms h0 strict meta) σ = some req) :
    (∃ ql, builtQueries (queryTplsOf ms) σ = some ql ∧ req.query = ql) ∧
    (∀ t, firstHostTpl ms = some t →
      ∃ cs, buildParts t σ = some cs ∧ req.host = String.mk cs) ∧
    (∀ t, firstPathTpl ms = some t →
      ∃ cs, buildParts t σ = some cs ∧ req.path = String.mk cs) := by
  cases hh : firstHostTpl ms <;> cases hp : firstPathTpl ms <;>
    simp only [routeURL, hh, hp] at hb
  case none.none =>
      cases hq : builtQueries (queryTplsOf ms) σ
      · rw [hq] at hb; simp at hb
      · rw [hq] at hb
        simp only [Option.some.injEq] at hb
        subst hb
        refine ⟨⟨_, rfl, rfl⟩, ?_, ?_⟩
        · intro t ht; cases ht
        · intro t ht; cases ht
  case none.some tp =>
      cases hbp : buildParts tp σ
      · rw [hbp] at hb; simp at hb
      · rw [hbp] at hb
        cases hq : builtQueries (queryTplsOf ms) σ
        · rw [hq] at hb; simp at hb
        · rw [hq] at hb
          simp only [Option.some.injEq] at hb
          subst hb
          refine ⟨⟨_, rfl, rfl⟩, ?_, ?_⟩
          · intro t ht; cases ht
          · intro t ht
            cases ht
            exact ⟨_, hbp, rfl⟩
  case some.none th =>
      cases hbh : buildParts th σ
      · rw [hbh] at hb; simp at hb
      · rw [hbh] at hb
        cases hq : builtQueries (queryTplsOf ms) σ
        · rw [hq] at hb; simp at hb
        · rw [hq] at hb
          simp only [Option.some.injEq] at hb
          subst hb
          refine ⟨⟨_, rfl, rfl⟩, ?_, ?_⟩
          · intro t ht
            cases ht
            exact ⟨_, hbh, rfl⟩
          · intro t ht; cases ht
  case some.some th tp =>
      cases hbh : buildParts th σ
      · rw [hbh] at hb; simp at hb
      · rw [hbh] at hb
        cases hbp : buildParts tp σ
        · rw [hbp] at hb; simp at hb
        · rw [hbp] at hb
          cases hq : builtQueries (queryTplsOf ms) σ
          · rw [hq] at hb; simp at hb
          · rw [hq] at hb
            simp only [Option.some.injEq] at hb
            subst hb
            refine ⟨⟨_, rfl, rfl⟩, ?_, ?_⟩
            · intro t ht
              cases ht
              exact ⟨_, hbh, rfl⟩
            · intro t ht
              cases ht
              exact ⟨_, hbp, rfl⟩

/-! ## Claim C1: URL building followed by matching is a round trip -/

/-- C1 (amended): for every route whose matchers are host, path and query
templates (at most one host and one path template, distinct query keys)
that are all separated — the spec's unambiguous templates, e.g. path
placeholders delimited by `/` — and every binding map under which the URL
build succeeds (so every supplied value satisfies its placeholder's
declared pattern), matching the built request succeeds, resolves the
route's handler, and yields exactly the route's declared variables bound
as in the binding map.  The unrestricted claim, for ambiguous templates,
is refuted by `url_match_roundtrip_cex`. -/
theorem url_match_roundtrip
    (ms : MatcherListM) (h : Handler) (strict : Bool) (meta : List (String × String))
    (σ : String → Option String) (req : Request)
    (hurl : onlyUrlMatchers ms = true)
    (hhost : hostCount ms ≤ 1) (hpath : pathCount ms ≤ 1)
    (hsep : sepAllB ms = true)
    (hnd : (queryKeysOf ms).Nodup)
    (hbuild : routeURL (.mk ms (some h) strict meta) σ = some req) :
    routeMatch (.mk ms (some h) strict meta) req = .okR h (routeVars ms σ) ∧
    (∀ n v, (n, v) ∈ routeVars ms σ → σ n = some v) := by
  obtain ⟨⟨ql, hqb, hreqq⟩, hhostf, hpathf⟩ :=
    routeURL_spec ms (some h) strict meta σ req hbuild
  have hpass : ∀ m, m ∈ msToList ms → matcherPasses req σ m := by
    intro m hmem
    rcases onlyUrl_mem ms m hurl hmem with ⟨t, rfl⟩ | ⟨t, rfl⟩ | ⟨k, t, rfl⟩
    · have hft := firstHostTpl_of_mem ms t hhost hmem
      obtain ⟨cs, hbt, hhosteq⟩ := hhostf t hft
      have hsept := sepAll_mem ms (.hostM t) t hsep hmem rfl
      have hmp := matchParts_buildParts t σ cs hsept hbt
      simp only [matcherPasses, hhosteq]
      exact hmp
    · have hft := firstPathTpl_of_mem ms t hpath hmem
      obtain ⟨cs, hbt, hpatheq⟩ := hpathf t hft
      have hsept := sepAll_mem ms (.pathM t) t hsep hmem rfl
      have hmp := matchParts_buildParts t σ cs hsept hbt
      simp only [matcherPasses, hpatheq]
      exact hmp
    · have hqt := queryM_mem_queryTpls ms k t hmem
      obtain ⟨cs, hbt, hlk⟩ :=
        lookupFirst_builtQueries (queryTplsOf ms) σ ql k t hqb hnd hqt
      have hsept := sepAll_mem ms (.queryM k t) t hsep hmem rfl
      refine ⟨String.mk cs, ?_, ?_⟩
      · rw [hreqq]; exact hlk
      · exact matchParts_buildParts t σ cs hsept hbt
  have hall := allPass_of_mem ms req σ hpass
  refine ⟨?_, fun n v => routeVars_mem ms σ n v⟩
  have hgo := matchersGo_allPass ms req σ [] h strict hall
  simpa [routeMatch] using hgo

/-- C1 counterexample: the round trip fails on the ambiguous template
`/\x7ba\x7d\x7bb\x7d` with bindings a = "x", b = "yz", both satisfying
the default `[^/]+` pattern.  The URL builds to `/xyz`; matching it
succeeds but, by the leftmost-greedy semantics of the compiled regular
expression, yields a = "xy", b = "z" — not the original bindings. -/
theorem url_match_roundtrip_cex :
    "x".data.all nonSlash = true ∧
    "yz".data.all nonSlash = true ∧
    routeURL ambRoute ambBind = some ambReq ∧
    (routeMatch ambRoute ambReq).varsOf = some [("a", "xy"), ("b", "z")] ∧
    (routeMatch ambRoute ambReq).varsOf ≠ some [("a", "x"), ("b", "yz")] :=
  ⟨by decide, by decide, by decide, by decide, by decide⟩

/-- Witness for C1: the separated host/path/query route, whose built URL
`http://api.domain.com/users/42?orgID=7` matches back to exactly the
bindings sub = "api", id = "42", org = "7". -/
theorem url_match_roundtrip_witness :
    onlyUrlMatchers urlMsL = true ∧
    sepAllB urlMsL = true ∧
    (queryKeysOf urlMsL).Nodup ∧
    routeURL urlRoute urlBind = some urlReq ∧
    routeMatch urlRoute urlReq
      = .okR (stringHandler "u") [("sub", "api"), ("id", "42"), ("org", "7")] := by
  refine ⟨by decide, by decide, by decide, by decide, ?_⟩
  have hrt := (url_match_roundtrip urlMsL (stringHandler "u") false [] urlBind urlReq
    (by decide) (by decide) (by decide) (by decide) (by decide) (by decide)).1
  have hrv : routeVars urlMsL urlBind
      = [("sub", "api"), ("id", "42"), ("org", "7")] := by decide
  rw [hrv] at hrt
  exact hrt

end Mux
